import Mathlib

/-!
Verification development for the NSoT IPAM core: address algebra over
IPv4/IPv6 prefixes, the per-Site network forest (insert / delete / update
with reparenting), the attribute schema validation, the append-only change
log, and the HTTP handler logic from `nsot/handlers/api.py`.

The handler layer (`api.py`) is embedded directly from the source.  The
model layer (`nsot/models.py`) is not part of the provided sources; the
definitions that stand for it are modelled from the specification and say
so in their doc comments.
-/

namespace Nsot

/-- Address family of a prefix: IPv4 or IPv6. -/
inductive Family where
  | v4
  | v6
deriving DecidableEq, Repr

/-- Bit width of an address in the given family: 32 for v4, 128 for v6. -/
def Family.width : Family → Nat
  | .v4 => 32
  | .v6 => 128

/-- A CIDR prefix (or host address when `plen` equals the family width):
an address as a fixed-width unsigned integer plus a prefix length. -/
structure Pfx where
  fam : Family
  addr : Nat
  plen : Nat
deriving DecidableEq, Repr

/-- Validity of a prefix: the prefix length is bounded by the family bit
width, the address fits in the family bit width, and all host bits (bits
beyond the prefix length) are zero. -/
def Pfx.validB (p : Pfx) : Bool :=
  decide (p.plen ≤ p.fam.width) &&
  decide (p.addr < 2 ^ p.fam.width) &&
  decide (p.addr % 2 ^ (p.fam.width - p.plen) = 0)

/-- The top `l` bits of the address of `p`, relative to the family width
of `p`. -/
def Pfx.top (p : Pfx) (l : Nat) : Nat :=
  p.addr / 2 ^ (p.fam.width - l)

/-- Containment of address ranges: `a.contains b` iff `b`'s range is a
(non-strict) subset of `a`'s range: same family, `a` no longer than `b`,
and `b` agrees with `a` on the top `a.plen` bits. -/
def Pfx.contains (a b : Pfx) : Bool :=
  a.fam == b.fam && decide (a.plen ≤ b.plen) && (b.top a.plen == a.top a.plen)

/-- Strict containment: containment by a distinct prefix. -/
def Pfx.SContains (a b : Pfx) : Prop :=
  a.contains b = true ∧ a ≠ b

instance (a b : Pfx) : Decidable (a.SContains b) := by
  unfold Pfx.SContains; infer_instance

theorem Pfx.contains_iff (a b : Pfx) :
    a.contains b = true ↔
      a.fam = b.fam ∧ a.plen ≤ b.plen ∧ b.top a.plen = a.top a.plen := by
  simp [Pfx.contains, and_assoc]

theorem Pfx.validB_iff (p : Pfx) :
    p.validB = true ↔
      p.plen ≤ p.fam.width ∧ p.addr < 2 ^ p.fam.width ∧
        p.addr % 2 ^ (p.fam.width - p.plen) = 0 := by
  simp [Pfx.validB, and_assoc]

theorem Pfx.contains_refl (a : Pfx) : a.contains a = true := by
  simp [Pfx.contains]

theorem Pfx.contains_fam {a b : Pfx} (h : a.contains b = true) : a.fam = b.fam :=
  ((Pfx.contains_iff a b).mp h).1

theorem Pfx.contains_plen_le {a b : Pfx} (h : a.contains b = true) :
    a.plen ≤ b.plen :=
  ((Pfx.contains_iff a b).mp h).2.1

/-- Restricting the top bits: taking the top `l1` bits is the same as
taking the top `l2` bits and then dropping the lowest `l2 - l1` of those,
provided `l1 ≤ l2 ≤ width`. -/
theorem Pfx.top_top {p : Pfx} {l1 l2 : Nat} (h12 : l1 ≤ l2)
    (h2 : l2 ≤ p.fam.width) :
    p.top l1 = p.top l2 / 2 ^ (l2 - l1) := by
  unfold Pfx.top
  have he : p.fam.width - l2 + (l2 - l1) = p.fam.width - l1 := by omega
  rw [Nat.div_div_eq_div_mul, ← pow_add, he]

/-- Two prefixes of the same family with equal top bits at the same length
have equal `top` at any shorter length. -/
theorem Pfx.top_congr {a b : Pfx} {l l' : Nat} (hfam : a.fam = b.fam)
    (h : a.top l = b.top l) (hl : l' ≤ l) (hw : l ≤ a.fam.width) :
    a.top l' = b.top l' := by
  rw [Pfx.top_top hl hw, Pfx.top_top hl (hfam ▸ hw), h]

theorem Pfx.contains_trans {a b c : Pfx} (hvb : b.validB = true)
    (hab : a.contains b = true) (hbc : b.contains c = true) :
    a.contains c = true := by
  rcases (Pfx.contains_iff a b).mp hab with ⟨hfab, hpab, htab⟩
  rcases (Pfx.contains_iff b c).mp hbc with ⟨hfbc, hpbc, htbc⟩
  rcases (Pfx.validB_iff b).mp hvb with ⟨hwb, -, -⟩
  refine (Pfx.contains_iff a c).mpr ⟨hfab.trans hfbc, hpab.trans hpbc, ?_⟩
  have hcb : c.top a.plen = b.top a.plen := by
    exact @Pfx.top_congr c b b.plen a.plen hfbc.symm htbc hpab
      (by rw [← hfbc]; exact hwb)
  rw [hcb, htab]

/-- A valid prefix is recovered from its top bits. -/
theorem Pfx.addr_eq_top_mul {p : Pfx} (hv : p.validB = true) :
    p.addr = p.top p.plen * 2 ^ (p.fam.width - p.plen) := by
  rcases (Pfx.validB_iff p).mp hv with ⟨-, -, hmod⟩
  unfold Pfx.top
  exact (Nat.div_mul_cancel (Nat.dvd_of_mod_eq_zero hmod)).symm

/-- Containment is antisymmetric on valid prefixes. -/
theorem Pfx.contains_antisymm {a b : Pfx} (hva : a.validB = true)
    (hvb : b.validB = true) (hab : a.contains b = true)
    (hba : b.contains a = true) : a = b := by
  rcases (Pfx.contains_iff a b).mp hab with ⟨hfab, hpab, htab⟩
  rcases (Pfx.contains_iff b a).mp hba with ⟨-, hpba, htba⟩
  have hplen : a.plen = b.plen := le_antisymm hpab hpba
  have haddr : a.addr = b.addr := by
    have ha := Pfx.addr_eq_top_mul hva
    have hb := Pfx.addr_eq_top_mul hvb
    have : b.top a.plen = a.top a.plen := htab
    rw [ha, hb, ← hplen, ← hfab, this]
  cases a; cases b
  simp_all

/-- Two prefixes containing a common prefix are nested. -/
theorem Pfx.nested {a b c : Pfx} (hva : a.validB = true) (hvb : b.validB = true)
    (hac : a.contains c = true) (hbc : b.contains c = true) :
    a.contains b = true ∨ b.contains a = true := by
  rcases (Pfx.contains_iff a c).mp hac with ⟨hfac, hpac, htac⟩
  rcases (Pfx.contains_iff b c).mp hbc with ⟨hfbc, hpbc, htbc⟩
  rcases (Pfx.validB_iff a).mp hva with ⟨hwa, -, -⟩
  rcases (Pfx.validB_iff b).mp hvb with ⟨hwb, -, -⟩
  have hfab : a.fam = b.fam := hfac.trans hfbc.symm
  rcases le_total a.plen b.plen with hp | hp
  · left
    refine (Pfx.contains_iff a b).mpr ⟨hfab, hp, ?_⟩
    have hwb' : b.plen ≤ c.fam.width := by rw [← hfbc]; exact hwb
    have h2 : c.top a.plen = b.top a.plen :=
      Pfx.top_congr hfbc.symm htbc hp hwb'
    rw [← h2, htac]
  · right
    refine (Pfx.contains_iff b a).mpr ⟨hfab.symm, hp, ?_⟩
    have hwa' : a.plen ≤ c.fam.width := by rw [← hfac]; exact hwa
    have h3 : c.top b.plen = a.top b.plen :=
      Pfx.top_congr hfac.symm htac hp hwa'
    rw [← h3, htbc]

/-- Strict containment implies a strictly shorter prefix length, on valid
prefixes. -/
theorem Pfx.scontains_plen_lt {a b : Pfx} (hva : a.validB = true)
    (hvb : b.validB = true) (h : a.SContains b) : a.plen < b.plen := by
  rcases h with ⟨hab, hne⟩
  rcases lt_or_eq_of_le (Pfx.contains_plen_le hab) with h | h
  · exact h
  · exfalso
    apply hne
    refine Pfx.contains_antisymm hva hvb hab ?_
    rcases (Pfx.contains_iff a b).mp hab with ⟨hfab, -, htab⟩
    exact (Pfx.contains_iff b a).mpr ⟨hfab.symm, le_of_eq h.symm, by rw [← h]; exact htab.symm⟩

theorem Pfx.scontains_trans_left {a b c : Pfx} (hva : a.validB = true)
    (hvb : b.validB = true) (hvc : c.validB = true)
    (hab : a.SContains b) (hbc : b.contains c = true) : a.SContains c := by
  refine ⟨Pfx.contains_trans hvb hab.1 hbc, ?_⟩
  intro h
  subst h
  have h1 := Pfx.scontains_plen_lt hva hvb hab
  have h2 := Pfx.contains_plen_le hbc
  omega

theorem Pfx.scontains_trans_right {a b c : Pfx} (hva : a.validB = true)
    (hvb : b.validB = true) (hvc : c.validB = true)
    (hab : a.contains b = true) (hbc : b.SContains c) : a.SContains c := by
  refine ⟨Pfx.contains_trans hvb hab hbc.1, ?_⟩
  intro h
  subst h
  have h1 := Pfx.scontains_plen_lt hvb hvc hbc
  have h2 := Pfx.contains_plen_le hab
  omega

theorem Pfx.scontains_irrefl (a : Pfx) : ¬ a.SContains a := fun h => h.2 rfl

/-! ## Data model -/

/-- Audit event kind, per the spec: `event ∈ {Create, Update, Delete}`. -/
inductive Event where
  | create
  | update
  | delete
deriving DecidableEq, Repr

/-- Resource kinds that are mutated and audited by the modelled core. -/
inductive RType where
  | site
  | network
  | networkAttribute
deriving DecidableEq, Repr

/-- Error taxonomy of §7 of the spec. -/
inductive Err where
  | invalidAddress
  | conflict
  | validationError
  | forbidden
  | notFound
  | badRequest
deriving DecidableEq, Repr

/-- A Site: the isolation boundary. -/
structure Site where
  id : Nat
  name : String
  description : String
deriving DecidableEq, Repr

/-- A NetworkAttribute: a schema entry for attribute values on Networks. -/
structure NetworkAttribute where
  id : Nat
  site_id : Nat
  name : String
  description : String
  required : Bool
deriving DecidableEq, Repr

/-- A Network: a node of the per-Site forest.  `pfx` packages
`network_address`, `prefix_length` and `ip_version`; `parent_id` is the
immediate supernet within the same Site (none for roots). -/
structure Network where
  id : Nat
  site_id : Nat
  pfx : Pfx
  parent_id : Option Nat
  attributes : List (String × String)
deriving DecidableEq, Repr

/-- An immutable audit record of one mutation. -/
structure Change where
  id : Nat
  site_id : Nat
  user_id : Nat
  change_at : Nat
  event : Event
  resource_type : RType
  resource_id : Nat
deriving DecidableEq, Repr

/-- The whole persistent state: the relational tables plus an id counter
and a logical clock stamping changes. -/
structure DB where
  sites : List Site
  attributes : List NetworkAttribute
  networks : List Network
  changes : List Change
  next_id : Nat
  clock : Nat
deriving DecidableEq, Repr

/-- The empty initial state. -/
def initDB : DB := ⟨[], [], [], [], 1, 0⟩

/-- Build the single Change entry appended by a mutation. -/
def mkChange (db : DB) (user_id site_id : Nat) (event : Event)
    (rtype : RType) (rid : Nat) : Change :=
  { id := db.clock, site_id := site_id, user_id := user_id,
    change_at := db.clock, event := event, resource_type := rtype,
    resource_id := rid }

/-! ## Operations

The bodies of `models.Site`, `models.NetworkAttribute` and
`models.Network` are not among the provided sources (only their callers in
`nsot/handlers/api.py` are); each mutation below is modelled from the
spec, following §4.2–§4.4 step by step. -/

/-- Modelled from the spec: `Validate(site, proposed_values)` of §4.3,
standing for the attribute validation inside `models.Network`.  Every
required NetworkAttribute of the Site must have a non-empty entry, and
every proposed key must exist in the Site's schema; violations are
`ValidationError`. -/
def validateAttrs (defs : List NetworkAttribute) (site_id : Nat)
    (attrs : List (String × String)) : Except Err Unit :=
  if defs.any (fun d => d.site_id == site_id && d.required &&
      !(attrs.any (fun kv => kv.1 == d.name && kv.2 != ""))) then
    .error .validationError
  else if attrs.any (fun kv =>
      !(defs.any (fun d => d.site_id == site_id && d.name == kv.1))) then
    .error .validationError
  else
    .ok ()

/-- The existing Networks of the Site that strictly contain `p`. -/
def containersOf (nets : List Network) (site_id : Nat) (p : Pfx) :
    List Network :=
  nets.filter (fun m => m.site_id == site_id && m.pfx.contains p && m.pfx != p)

/-- The candidate with the longest prefix length, i.e. the most specific
one; `none` on the empty list. -/
def argmaxPlen : List Network → Option Network
  | [] => none
  | m :: rest =>
    match argmaxPlen rest with
    | none => some m
    | some b => if b.pfx.plen < m.pfx.plen then some m else some b

/-- The parent chosen for a node with prefix `p` in `site_id`: the id of
the most specific existing Network of the Site containing it, none when no
Network contains it. -/
def insertParentId (nets : List Network) (site_id : Nat) (p : Pfx) :
    Option Nat :=
  (argmaxPlen (containersOf nets site_id p)).map Network.id

/-- The re-parenting pass of Insert, applied to one existing node: a node
of the Site whose current parent is the new node's parent and which the
new node contains is re-pointed to the new node (`nid`). -/
def reparentOne (site_id : Nat) (p : Pfx) (pid : Option Nat) (nid : Nat)
    (m : Network) : Network :=
  if m.site_id == site_id && m.parent_id == pid && p.contains m.pfx then
    { m with parent_id := some nid }
  else m

/-- Modelled from the spec: `Insert(site, cidr, attributes)` of §4.2 — the
body of `models.Network.create`, which is not among the provided sources.
Steps: site lookup (as in `NetworksHandler.post`), address validation,
duplicate rejection, attribute validation, most-specific-parent scan,
one-pass re-parenting of the parent's children that the new node contains,
persistence plus one Create Change. -/
def createNetwork (db : DB) (user_id site_id : Nat) (p : Pfx)
    (attrs : List (String × String)) : Except Err DB :=
  if !(db.sites.any (fun s => s.id == site_id)) then .error .notFound
  else if !p.validB then .error .invalidAddress
  else if db.networks.any (fun m => m.site_id == site_id && m.pfx == p) then
    .error .conflict
  else
    match validateAttrs db.attributes site_id attrs with
    | .error e => .error e
    | .ok _ =>
      let pid := insertParentId db.networks site_id p
      let nid := db.next_id
      let newNet : Network := ⟨nid, site_id, p, pid, attrs⟩
      .ok { db with
              networks :=
                newNet :: db.networks.map (reparentOne site_id p pid nid),
              next_id := nid + 1,
              clock := db.clock + 1,
              changes :=
                mkChange db user_id site_id .create .network nid :: db.changes }

/-- The promotion pass of Delete, applied to one surviving node: a child
of the deleted node (`network_id`) is re-pointed to the deleted node's own
parent (`newp`). -/
def promoteOne (network_id : Nat) (newp : Option Nat) (m : Network) :
    Network :=
  if m.parent_id == some network_id then { m with parent_id := newp } else m

/-- Modelled from the spec: `Delete(network)` of §4.2 — the body of
`models.Network.delete`, which is not among the provided sources.  Every
child of the deleted node is re-pointed to the deleted node's own parent,
the node is removed, and one Delete Change is appended. -/
def deleteNetwork (db : DB) (user_id network_id : Nat) : Except Err DB :=
  match db.networks.find? (fun m => m.id == network_id) with
  | none => .error .notFound
  | some n =>
    .ok { db with
            networks :=
              (db.networks.filter (fun m => m.id != network_id)).map
                (promoteOne network_id n.parent_id),
            clock := db.clock + 1,
            changes :=
              mkChange db user_id n.site_id .delete .network network_id ::
                db.changes }

/-- Modelled from the spec: `Update(network, attributes)` of §4.2 — the
body of `models.Network.update`, which is not among the provided sources.
Attribute values are revalidated and replaced; the structural position
never changes; one Update Change is appended. -/
def updateNetwork (db : DB) (user_id network_id : Nat)
    (attrs : List (String × String)) : Except Err DB :=
  match db.networks.find? (fun m => m.id == network_id) with
  | none => .error .notFound
  | some n =>
    match validateAttrs db.attributes n.site_id attrs with
    | .error e => .error e
    | .ok _ =>
      .ok { db with
              networks := db.networks.map (fun m =>
                if m.id == network_id then { m with attributes := attrs } else m),
              clock := db.clock + 1,
              changes :=
                mkChange db user_id n.site_id .update .network network_id ::
                  db.changes }

/-- Modelled from the spec: `models.Site.create` (not among the provided
sources).  Site names are unique; one Create Change is appended. -/
def createSite (db : DB) (user_id : Nat) (name description : String) :
    Except Err DB :=
  if db.sites.any (fun s => s.name == name) then .error .conflict
  else
    let sid := db.next_id
    .ok { db with
            sites := (⟨sid, name, description⟩ : Site) :: db.sites,
            next_id := sid + 1,
            clock := db.clock + 1,
            changes := mkChange db user_id sid .create .site sid :: db.changes }

/-- Modelled from the spec: `models.Site.update` (not among the provided
sources), as called by `SiteHandler.put`.  Name and description are
replaced; a clash with another Site's name is a Conflict; one Update
Change is appended. -/
def updateSite (db : DB) (user_id site_id : Nat) (name description : String) :
    Except Err DB :=
  match db.sites.find? (fun s => s.id == site_id) with
  | none => .error .notFound
  | some _ =>
    if db.sites.any (fun s => s.id != site_id && s.name == name) then
      .error .conflict
    else
      .ok { db with
              sites := db.sites.map (fun s =>
                if s.id == site_id then
                  { s with name := name, description := description }
                else s),
              clock := db.clock + 1,
              changes :=
                mkChange db user_id site_id .update .site site_id :: db.changes }

/-- Modelled from the spec: `models.Site.delete` (not among the provided
sources).  A Site is deleted only when it owns no Networks or
NetworkAttributes; one Delete Change is appended. -/
def deleteSite (db : DB) (user_id site_id : Nat) : Except Err DB :=
  match db.sites.find? (fun s => s.id == site_id) with
  | none => .error .notFound
  | some _ =>
    if db.networks.any (fun m => m.site_id == site_id) ||
        db.attributes.any (fun d => d.site_id == site_id) then
      .error .conflict
    else
      .ok { db with
              sites := db.sites.filter (fun s => s.id != site_id),
              clock := db.clock + 1,
              changes :=
                mkChange db user_id site_id .delete .site site_id :: db.changes }

/-- Modelled from the spec: `DefineAttribute(site, name, required,
description)` of §4.3 — `models.NetworkAttribute.create`, not among the
provided sources.  Names are unique within the Site. -/
def createAttribute (db : DB) (user_id site_id : Nat)
    (name description : String) (required : Bool) : Except Err DB :=
  if !(db.sites.any (fun s => s.id == site_id)) then .error .notFound
  else if db.attributes.any (fun d => d.site_id == site_id && d.name == name) then
    .error .conflict
  else
    let aid := db.next_id
    .ok { db with
            attributes :=
              (⟨aid, site_id, name, description, required⟩ : NetworkAttribute) ::
                db.attributes,
            next_id := aid + 1,
            clock := db.clock + 1,
            changes :=
              mkChange db user_id site_id .create .networkAttribute aid ::
                db.changes }

/-- Modelled from the spec: `models.NetworkAttribute.update` (not among
the provided sources), as called by `NetworkAttributeHandler.put`:
description and required flag are replaced. -/
def updateAttribute (db : DB) (user_id attribute_id : Nat)
    (description : String) (required : Bool) : Except Err DB :=
  match db.attributes.find? (fun d => d.id == attribute_id) with
  | none => .error .notFound
  | some d =>
    .ok { db with
            attributes := db.attributes.map (fun a =>
              if a.id == attribute_id then
                { a with description := description, required := required }
              else a),
            clock := db.clock + 1,
            changes :=
              mkChange db user_id d.site_id .update .networkAttribute
                attribute_id :: db.changes }

/-- Modelled from the spec: `DeleteAttribute(attribute)` of §4.3 (not
among the provided sources), with the spec's default policy: reject with
Conflict while any Network carries a non-empty value under that name. -/
def deleteAttribute (db : DB) (user_id attribute_id : Nat) : Except Err DB :=
  match db.attributes.find? (fun d => d.id == attribute_id) with
  | none => .error .notFound
  | some d =>
    if db.networks.any (fun m => m.site_id == d.site_id &&
        m.attributes.any (fun kv => kv.1 == d.name && kv.2 != "")) then
      .error .conflict
    else
      .ok { db with
              attributes := db.attributes.filter (fun a => a.id != attribute_id),
              clock := db.clock + 1,
              changes :=
                mkChange db user_id d.site_id .delete .networkAttribute
                  attribute_id :: db.changes }

/-- One mutation request against the core. -/
inductive Op where
  | createSite (user_id : Nat) (name description : String)
  | updateSite (user_id site_id : Nat) (name description : String)
  | deleteSite (user_id site_id : Nat)
  | createAttribute (user_id site_id : Nat) (name description : String)
      (required : Bool)
  | updateAttribute (user_id attribute_id : Nat) (description : String)
      (required : Bool)
  | deleteAttribute (user_id attribute_id : Nat)
  | createNetwork (user_id site_id : Nat) (p : Pfx)
      (attrs : List (String × String))
  | updateNetwork (user_id network_id : Nat) (attrs : List (String × String))
  | deleteNetwork (user_id network_id : Nat)
deriving DecidableEq, Repr

/-- Dispatch one mutation. -/
def applyOp (db : DB) : Op → Except Err DB
  | .createSite u n d => createSite db u n d
  | .updateSite u s n d => updateSite db u s n d
  | .deleteSite u s => deleteSite db u s
  | .createAttribute u s n d r => createAttribute db u s n d r
  | .updateAttribute u a d r => updateAttribute db u a d r
  | .deleteAttribute u a => deleteAttribute db u a
  | .createNetwork u s p at_ => createNetwork db u s p at_
  | .updateNetwork u n at_ => updateNetwork db u n at_
  | .deleteNetwork u n => deleteNetwork db u n

/-- One mutation as a transaction: a failed mutation leaves the state
untouched (all-or-nothing, §5). -/
def runOp (db : DB) (op : Op) : DB :=
  match applyOp db op with
  | .ok db' => db'
  | .error _ => db

/-- Run a whole request sequence from the empty state. -/
def runOps (ops : List Op) : DB := ops.foldl runOp initDB

/-! ## The containment invariant -/

/-- No Network of the Site strictly contains `p`. -/
def NoContainer (nets : List Network) (site_id : Nat) (p : Pfx) : Prop :=
  ∀ m ∈ nets, m.site_id = site_id → ¬ m.pfx.SContains p

/-- Predicate: `m` is the most specific Network of the Site strictly
containing `p`:
it strictly contains `p` and every other strict container of `p` in the
Site contains `m`. -/
def IsMSC (nets : List Network) (site_id : Nat) (p : Pfx) (m : Network) :
    Prop :=
  m ∈ nets ∧ m.site_id = site_id ∧ m.pfx.SContains p ∧
    ∀ m' ∈ nets, m'.site_id = site_id → m'.pfx.SContains p →
      m'.pfx.contains m.pfx = true

/-- The parent pointer of `n` is correct: none when nothing in the Site
strictly contains `n`, and otherwise the id of the most specific strict
container. -/
def ParentOk (nets : List Network) (n : Network) : Prop :=
  (n.parent_id = none ∧ NoContainer nets n.site_id n.pfx) ∨
  (∃ m ∈ nets, IsMSC nets n.site_id n.pfx m ∧ n.parent_id = some m.id)

/-- The forest invariant: unique ids, per-Site unique prefixes, valid
prefixes, and every parent pointer correct. -/
def NetsInv (nets : List Network) : Prop :=
  (∀ m ∈ nets, ∀ m' ∈ nets, m.id = m'.id → m = m') ∧
  (∀ m ∈ nets, ∀ m' ∈ nets, m.site_id = m'.site_id → m.pfx = m'.pfx → m = m') ∧
  (∀ m ∈ nets, m.pfx.validB = true) ∧
  (∀ n ∈ nets, ParentOk nets n)

/-- The state invariant: the forest invariant plus freshness of the id
counter. -/
def DBInv (db : DB) : Prop :=
  NetsInv db.networks ∧ ∀ m ∈ db.networks, m.id < db.next_id

instance (nets : List Network) (site_id : Nat) (p : Pfx) :
    Decidable (NoContainer nets site_id p) := by
  unfold NoContainer; infer_instance

instance (nets : List Network) (site_id : Nat) (p : Pfx) (m : Network) :
    Decidable (IsMSC nets site_id p m) := by
  unfold IsMSC; infer_instance

instance (nets : List Network) (n : Network) : Decidable (ParentOk nets n) := by
  unfold ParentOk; infer_instance

instance (nets : List Network) : Decidable (NetsInv nets) := by
  unfold NetsInv; infer_instance

instance (db : DB) : Decidable (DBInv db) := by
  unfold DBInv; infer_instance

/-! ## Helper lemmas about containers and the most specific container -/

/-- A containment with the reverse prefix-length inequality flips. -/
theorem Pfx.contains_flip {a b : Pfx} (h : a.contains b = true)
    (hp : b.plen ≤ a.plen) : b.contains a = true := by
  rcases (Pfx.contains_iff a b).mp h with ⟨hf, hp', ht⟩
  have he : a.plen = b.plen := le_antisymm hp' hp
  refine (Pfx.contains_iff b a).mpr ⟨hf.symm, le_of_eq he.symm, ?_⟩
  rw [← he]
  exact ht.symm

theorem mem_containersOf {nets : List Network} {site_id : Nat} {p : Pfx}
    {m : Network} :
    m ∈ containersOf nets site_id p ↔
      m ∈ nets ∧ m.site_id = site_id ∧ m.pfx.SContains p := by
  simp [containersOf, List.mem_filter, Pfx.SContains, and_assoc]

theorem argmaxPlen_eq_none {l : List Network} :
    argmaxPlen l = none ↔ l = [] := by
  cases l with
  | nil => simp [argmaxPlen]
  | cons x rest =>
    rw [argmaxPlen]
    rcases hr : argmaxPlen rest with - | b
    · simp
    · by_cases hb : b.pfx.plen < x.pfx.plen <;> simp [hb]

theorem argmaxPlen_mem {l : List Network} {m : Network}
    (h : argmaxPlen l = some m) : m ∈ l := by
  induction l with
  | nil => simp [argmaxPlen] at h
  | cons x rest ih =>
    rw [argmaxPlen] at h
    rcases hr : argmaxPlen rest with - | b <;> rw [hr] at h
    · simp at h
      simp [h]
    · by_cases hb : b.pfx.plen < x.pfx.plen <;> simp [hb] at h
      · simp [h]
      · rw [h] at hr
        exact List.mem_cons_of_mem _ (ih hr)

theorem argmaxPlen_max {l : List Network} {m : Network}
    (h : argmaxPlen l = some m) :
    ∀ x ∈ l, x.pfx.plen ≤ m.pfx.plen := by
  induction l generalizing m with
  | nil => simp
  | cons y rest ih =>
    intro x hx
    rw [argmaxPlen] at h
    rcases hr : argmaxPlen rest with - | b <;> rw [hr] at h
    · simp at h
      have : rest = [] := argmaxPlen_eq_none.mp hr
      subst this
      rcases List.mem_cons.mp hx with h' | h'
      · rw [h', ← h]
      · simp at h'
    · by_cases hb : b.pfx.plen < y.pfx.plen <;> simp [hb] at h
      · rcases List.mem_cons.mp hx with h' | h'
        · rw [h', ← h]
        · have := ih hr x h'
          rw [← h]
          omega
      · rcases List.mem_cons.mp hx with h' | h'
        · rw [h', ← h]
          omega
        · rw [← h]
          exact ih hr x h'

/-- When the scan finds no container, the Site has none. -/
theorem insertParentId_none {nets : List Network} {site_id : Nat} {p : Pfx}
    (h : argmaxPlen (containersOf nets site_id p) = none) :
    NoContainer nets site_id p := by
  intro m hm hsite hsc
  have : m ∈ containersOf nets site_id p :=
    mem_containersOf.mpr ⟨hm, hsite, hsc⟩
  rw [argmaxPlen_eq_none.mp h] at this
  simp at this

/-- When the scan returns a node, it is the most specific container. -/
theorem insertParentId_some {nets : List Network} {site_id : Nat} {p : Pfx}
    {q : Network} (hv : ∀ m ∈ nets, m.pfx.validB = true)
    (h : argmaxPlen (containersOf nets site_id p) = some q) :
    IsMSC nets site_id p q := by
  have hqmem := mem_containersOf.mp (argmaxPlen_mem h)
  refine ⟨hqmem.1, hqmem.2.1, hqmem.2.2, ?_⟩
  intro m' hm' hsite' hsc'
  have hm'c : m' ∈ containersOf nets site_id p :=
    mem_containersOf.mpr ⟨hm', hsite', hsc'⟩
  have hple : m'.pfx.plen ≤ q.pfx.plen := argmaxPlen_max h m' hm'c
  rcases Pfx.nested (hv m' hm') (hv q hqmem.1) hsc'.1 hqmem.2.2.1 with hc | hc
  · exact hc
  · exact Pfx.contains_flip hc hple

/-- The most specific container is unique among Networks of a Site with
unique prefixes. -/
theorem IsMSC_unique {nets : List Network} {site_id : Nat} {p : Pfx}
    {m m' : Network} (hv : ∀ x ∈ nets, x.pfx.validB = true)
    (huniq : ∀ x ∈ nets, ∀ x' ∈ nets,
      x.site_id = x'.site_id → x.pfx = x'.pfx → x = x')
    (h : IsMSC nets site_id p m) (h' : IsMSC nets site_id p m') : m = m' := by
  have h1 : m'.pfx.contains m.pfx = true := h.2.2.2 m' h'.1 h'.2.1 h'.2.2.1
  have h2 : m.pfx.contains m'.pfx = true := h'.2.2.2 m h.1 h.2.1 h.2.2.1
  have hpfx : m.pfx = m'.pfx :=
    Pfx.contains_antisymm (hv m h.1) (hv m' h'.1) h2 h1
  exact huniq m h.1 m' h'.1 (h.2.1.trans h'.2.1.symm) hpfx

/-! ### Field preservation of the re-parenting pass -/

theorem reparentOne_id (site_id : Nat) (p : Pfx) (pid : Option Nat)
    (nid : Nat) (m : Network) : (reparentOne site_id p pid nid m).id = m.id := by
  unfold reparentOne; split <;> rfl

theorem reparentOne_site_id (site_id : Nat) (p : Pfx) (pid : Option Nat)
    (nid : Nat) (m : Network) :
    (reparentOne site_id p pid nid m).site_id = m.site_id := by
  unfold reparentOne; split <;> rfl

theorem reparentOne_pfx (site_id : Nat) (p : Pfx) (pid : Option Nat)
    (nid : Nat) (m : Network) :
    (reparentOne site_id p pid nid m).pfx = m.pfx := by
  unfold reparentOne; split <;> rfl

theorem reparentOne_attributes (site_id : Nat) (p : Pfx) (pid : Option Nat)
    (nid : Nat) (m : Network) :
    (reparentOne site_id p pid nid m).attributes = m.attributes := by
  unfold reparentOne; split <;> rfl

theorem reparentOne_parent_pos {site_id : Nat} {p : Pfx} {pid : Option Nat}
    {nid : Nat} {m : Network} (h1 : m.site_id = site_id)
    (h2 : m.parent_id = pid) (h3 : p.contains m.pfx = true) :
    (reparentOne site_id p pid nid m).parent_id = some nid := by
  unfold reparentOne
  rw [if_pos (by simp [h1, h2, h3])]

theorem reparentOne_parent_neg {site_id : Nat} {p : Pfx} {pid : Option Nat}
    {nid : Nat} {m : Network}
    (h : ¬(m.site_id = site_id ∧ m.parent_id = pid ∧ p.contains m.pfx = true)) :
    reparentOne site_id p pid nid m = m := by
  unfold reparentOne
  rw [if_neg (by simpa [and_assoc] using h)]

theorem reparentOne_cases (site_id : Nat) (p : Pfx) (pid : Option Nat)
    (nid : Nat) (m : Network) :
    ((m.site_id = site_id ∧ m.parent_id = pid ∧ p.contains m.pfx = true) ∧
      (reparentOne site_id p pid nid m).parent_id = some nid) ∨
    (¬(m.site_id = site_id ∧ m.parent_id = pid ∧ p.contains m.pfx = true) ∧
      reparentOne site_id p pid nid m = m) := by
  by_cases h : m.site_id = site_id ∧ m.parent_id = pid ∧ p.contains m.pfx = true
  · exact Or.inl ⟨h, reparentOne_parent_pos h.1 h.2.1 h.2.2⟩
  · exact Or.inr ⟨h, reparentOne_parent_neg h⟩

/-- Anatomy of a successful Insert: the address was valid, there was no
duplicate in the Site, and the new table is the new node (parented at the
most specific container scan's result) consed onto the re-parented old
table. -/
theorem createNetwork_ok_elim {db : DB} {u s : Nat} {p : Pfx}
    {attrs : List (String × String)} {db' : DB}
    (h : createNetwork db u s p attrs = .ok db') :
    p.validB = true ∧
    (∀ m ∈ db.networks, ¬(m.site_id = s ∧ m.pfx = p)) ∧
    db'.networks =
      (⟨db.next_id, s, p, insertParentId db.networks s p, attrs⟩ : Network) ::
        db.networks.map
          (reparentOne s p (insertParentId db.networks s p) db.next_id) ∧
    db'.next_id = db.next_id + 1 ∧
    db'.attributes = db.attributes ∧ db'.sites = db.sites := by
  unfold createNetwork at h
  split at h
  · cases h
  split at h
  · cases h
  rename_i hvalid
  split at h
  · cases h
  rename_i hdup
  split at h
  · cases h
  have hv : p.validB = true := by
    simpa using hvalid
  have hnd : ∀ m ∈ db.networks, ¬(m.site_id = s ∧ m.pfx = p) := by
    intro m hm hc
    exact hdup (List.any_eq_true.mpr ⟨m, hm, by simp [hc.1, hc.2]⟩)
  cases h
  exact ⟨hv, hnd, rfl, rfl, rfl, rfl⟩

/-! ## Preservation of the containment invariant by Insert -/

section InsertPreservation

variable {nets : List Network} {s : Nat} {p : Pfx} {nid : Nat}
    {attrs : List (String × String)}

/-- After Insert, the new node's own parent pointer is correct: it points
at the most specific existing container, or nowhere when none exists. -/
theorem insert_parentOk_new
    (hval : ∀ m ∈ nets, m.pfx.validB = true) :
    ParentOk
      ((⟨nid, s, p, insertParentId nets s p, attrs⟩ : Network) ::
        nets.map (reparentOne s p (insertParentId nets s p) nid))
      ⟨nid, s, p, insertParentId nets s p, attrs⟩ := by
  rcases hq : argmaxPlen (containersOf nets s p) with - | q
  · left
    constructor
    · show insertParentId nets s p = none
      rw [insertParentId, hq]
      rfl
    · intro m' hm' hsite hsc
      rcases List.mem_cons.mp hm' with rfl | hm''
      · exact Pfx.scontains_irrefl _ hsc
      · obtain ⟨a, ha, rfl⟩ := List.mem_map.mp hm''
        rw [reparentOne_pfx] at hsc
        rw [reparentOne_site_id] at hsite
        exact insertParentId_none hq a ha hsite hsc
  · right
    have hmsc := insertParentId_some hval hq
    refine ⟨reparentOne s p (insertParentId nets s p) nid q,
      List.mem_cons_of_mem _ (List.mem_map_of_mem _ hmsc.1), ⟨?_, ?_⟩⟩
    · refine ⟨List.mem_cons_of_mem _ (List.mem_map_of_mem _ hmsc.1), ?_, ?_, ?_⟩
      · rw [reparentOne_site_id]
        exact hmsc.2.1
      · rw [reparentOne_pfx]
        exact hmsc.2.2.1
      · intro m' hm' hsite hsc
        rw [reparentOne_pfx]
        rcases List.mem_cons.mp hm' with rfl | hm''
        · exact absurd hsc (Pfx.scontains_irrefl _)
        · obtain ⟨a, ha, rfl⟩ := List.mem_map.mp hm''
          rw [reparentOne_pfx] at hsc
          rw [reparentOne_site_id] at hsite
          rw [reparentOne_pfx]
          exact hmsc.2.2.2 a ha hsite hsc
    · show insertParentId nets s p = some _
      simp [insertParentId, hq, reparentOne_id]

/-- After Insert, every pre-existing node's parent pointer is still
correct: nodes interposed under the new node now point at it, all others
keep their previous (still most specific) parent. -/
theorem insert_parentOk_old
    (hval : ∀ m ∈ nets, m.pfx.validB = true) (hvp : p.validB = true)
    (hnodup : ∀ m ∈ nets, ¬(m.site_id = s ∧ m.pfx = p))
    (huid : ∀ m ∈ nets, ∀ m' ∈ nets, m.id = m'.id → m = m')
    (hupfx : ∀ m ∈ nets, ∀ m' ∈ nets,
      m.site_id = m'.site_id → m.pfx = m'.pfx → m = m')
    (hpok : ∀ n ∈ nets, ParentOk nets n)
    (a : Network) (ha : a ∈ nets) :
    ParentOk
      ((⟨nid, s, p, insertParentId nets s p, attrs⟩ : Network) ::
        nets.map (reparentOne s p (insertParentId nets s p) nid))
      (reparentOne s p (insertParentId nets s p) nid a) := by
  rcases reparentOne_cases s p (insertParentId nets s p) nid a with
    ⟨⟨hs1, hs2, hs3⟩, hpar⟩ | ⟨hcond, heq⟩
  · -- `a` was re-pointed to the new node; the new node is its MSC now.
    right
    refine ⟨⟨nid, s, p, insertParentId nets s p, attrs⟩,
      List.mem_cons_self _ _, ⟨?_, ?_⟩⟩
    · refine ⟨List.mem_cons_self _ _, ?_, ?_, ?_⟩
      · show s = _
        rw [reparentOne_site_id, hs1]
      · show Pfx.SContains p _
        rw [reparentOne_pfx]
        exact ⟨hs3, fun hpp => hnodup a ha ⟨hs1, hpp.symm⟩⟩
      · intro m' hm' hsite hsc
        rcases List.mem_cons.mp hm' with rfl | hm''
        · exact Pfx.contains_refl p
        · obtain ⟨b, hb, rfl⟩ := List.mem_map.mp hm''
          simp only [reparentOne_pfx, reparentOne_site_id] at hsc hsite ⊢
          show b.pfx.contains p = true
          rcases hpok a ha with ⟨hpn, hnc⟩ | ⟨w, hw, hmscw, hpw⟩
          · exact absurd hsc (hnc b hb hsite)
          · rcases hq : argmaxPlen (containersOf nets s p) with - | q
            · rw [insertParentId, hq] at hs2
              rw [hpw] at hs2
              cases hs2
            · have hqc := mem_containersOf.mp (argmaxPlen_mem hq)
              have hqid : a.parent_id = some q.id := by
                rw [hs2, insertParentId, hq]
                rfl
              have hqe : q = w := by
                rw [hpw] at hqid
                injection hqid with h'
                exact huid q hqc.1 w hw h'.symm
              have hwp : w.pfx.contains p = true := by
                rw [← hqe]
                exact hqc.2.2.1
              have hbw : b.pfx.contains w.pfx = true :=
                hmscw.2.2.2 b hb hsite hsc
              exact Pfx.contains_trans (hval w hw) hbw hwp
    · exact hpar
  · -- `a` kept its parent pointer; it is still the most specific one.
    rw [heq]
    rcases hpok a ha with ⟨hpn, hnc⟩ | ⟨w, hw, hmscw, hpw⟩
    · by_cases hps : a.site_id = s ∧ p.SContains a.pfx
      · exfalso
        obtain ⟨hsite, hsc⟩ := hps
        have hpne : a.parent_id ≠ insertParentId nets s p :=
          fun hp' => hcond ⟨hsite, hp', hsc.1⟩
        rcases hq : argmaxPlen (containersOf nets s p) with - | q
        · exact hpne (by rw [hpn, insertParentId, hq]; rfl)
        · have hmscq := insertParentId_some hval hq
          have hqa : q.pfx.SContains a.pfx :=
            Pfx.scontains_trans_left (hval q hmscq.1) hvp (hval a ha)
              hmscq.2.2.1 hsc.1
          exact hnc q hmscq.1 (by rw [hmscq.2.1, hsite]) hqa
      · left
        refine ⟨hpn, ?_⟩
        intro m' hm' hsite hsc
        rcases List.mem_cons.mp hm' with rfl | hm''
        · exact hps ⟨hsite.symm, hsc⟩
        · obtain ⟨b, hb, rfl⟩ := List.mem_map.mp hm''
          simp only [reparentOne_pfx, reparentOne_site_id] at hsc hsite
          exact hnc b hb hsite hsc
    · right
      refine ⟨reparentOne s p (insertParentId nets s p) nid w,
        List.mem_cons_of_mem _ (List.mem_map_of_mem _ hw), ⟨?_, ?_⟩⟩
      · refine ⟨List.mem_cons_of_mem _ (List.mem_map_of_mem _ hw), ?_, ?_, ?_⟩
        · rw [reparentOne_site_id]
          exact hmscw.2.1
        · rw [reparentOne_pfx]
          exact hmscw.2.2.1
        · intro m' hm' hsite hsc
          rw [reparentOne_pfx]
          rcases List.mem_cons.mp hm' with rfl | hm''
          · -- `m'` is the new node: it must contain the old parent `w`.
            show p.contains w.pfx = true
            have hsite' : a.site_id = s := hsite.symm
            have hpne : a.parent_id ≠ insertParentId nets s p :=
              fun hp' => hcond ⟨hsite', hp', hsc.1⟩
            rcases Pfx.nested hvp (hval w hw) hsc.1 hmscw.2.2.1.1 with hc | hc
            · exact hc
            · exfalso
              have hwnp : w.pfx ≠ p := fun hpp =>
                hnodup w hw ⟨by rw [hmscw.2.1, hsite'], hpp⟩
              have hwin : w ∈ containersOf nets s p :=
                mem_containersOf.mpr
                  ⟨hw, by rw [hmscw.2.1, hsite'], hc, hwnp⟩
              rcases hq : argmaxPlen (containersOf nets s p) with - | q
              · rw [argmaxPlen_eq_none.mp hq] at hwin
                cases hwin
              · have hmscq := insertParentId_some hval hq
                have hq1 : q.pfx.SContains a.pfx :=
                  Pfx.scontains_trans_left (hval q hmscq.1) hvp (hval a ha)
                    hmscq.2.2.1 hsc.1
                have h1 : q.pfx.contains w.pfx = true :=
                  hmscw.2.2.2 q hmscq.1 (by rw [hmscq.2.1, hsite']) hq1
                have h2 : w.pfx.contains q.pfx = true :=
                  hmscq.2.2.2 w hw (by rw [hmscw.2.1, hsite']) ⟨hc, hwnp⟩
                have hpfxeq : q.pfx = w.pfx :=
                  Pfx.contains_antisymm (hval q hmscq.1) (hval w hw) h1 h2
                have hqw : q = w := hupfx q hmscq.1 w hw
                  (by rw [hmscq.2.1, hmscw.2.1, hsite']) hpfxeq
                apply hpne
                rw [hpw, insertParentId, hq, hqw]
                rfl
          · obtain ⟨b, hb, rfl⟩ := List.mem_map.mp hm''
            simp only [reparentOne_pfx, reparentOne_site_id] at hsc hsite ⊢
            exact hmscw.2.2.2 b hb hsite hsc
      · rw [reparentOne_id, hpw]

end InsertPreservation

/-- A successful Insert preserves the whole state invariant. -/
theorem createNetwork_preserves_inv {db : DB} {u s : Nat} {p : Pfx}
    {attrs : List (String × String)} {db' : DB} (hinv : DBInv db)
    (h : createNetwork db u s p attrs = .ok db') : DBInv db' := by
  obtain ⟨hvp, hnodup, hnets, hnid, -, -⟩ := createNetwork_ok_elim h
  obtain ⟨⟨huid, hupfx, hval, hpok⟩, hbound⟩ := hinv
  constructor
  · rw [hnets]
    refine ⟨?_, ?_, ?_, ?_⟩
    · intro m1 hm1 m2 hm2 hid
      rcases List.mem_cons.mp hm1 with rfl | hm1' <;>
        rcases List.mem_cons.mp hm2 with rfl | hm2'
      · rfl
      · obtain ⟨b, hb, rfl⟩ := List.mem_map.mp hm2'
        rw [reparentOne_id] at hid
        exact absurd hid.symm (Nat.ne_of_lt (hbound b hb))
      · obtain ⟨b, hb, rfl⟩ := List.mem_map.mp hm1'
        rw [reparentOne_id] at hid
        exact absurd hid (Nat.ne_of_lt (hbound b hb))
      · obtain ⟨b1, hb1, rfl⟩ := List.mem_map.mp hm1'
        obtain ⟨b2, hb2, rfl⟩ := List.mem_map.mp hm2'
        rw [reparentOne_id, reparentOne_id] at hid
        rw [huid b1 hb1 b2 hb2 hid]
    · intro m1 hm1 m2 hm2 hsite hpfx
      rcases List.mem_cons.mp hm1 with rfl | hm1' <;>
        rcases List.mem_cons.mp hm2 with rfl | hm2'
      · rfl
      · obtain ⟨b, hb, rfl⟩ := List.mem_map.mp hm2'
        rw [reparentOne_site_id] at hsite
        rw [reparentOne_pfx] at hpfx
        exact absurd ⟨hsite.symm, hpfx.symm⟩ (hnodup b hb)
      · obtain ⟨b, hb, rfl⟩ := List.mem_map.mp hm1'
        rw [reparentOne_site_id] at hsite
        rw [reparentOne_pfx] at hpfx
        exact absurd ⟨hsite, hpfx⟩ (hnodup b hb)
      · obtain ⟨b1, hb1, rfl⟩ := List.mem_map.mp hm1'
        obtain ⟨b2, hb2, rfl⟩ := List.mem_map.mp hm2'
        rw [reparentOne_site_id, reparentOne_site_id] at hsite
        rw [reparentOne_pfx, reparentOne_pfx] at hpfx
        rw [hupfx b1 hb1 b2 hb2 hsite hpfx]
    · intro m hm
      rcases List.mem_cons.mp hm with rfl | hm'
      · exact hvp
      · obtain ⟨b, hb, rfl⟩ := List.mem_map.mp hm'
        rw [reparentOne_pfx]
        exact hval b hb
    · intro n hn
      rcases List.mem_cons.mp hn with rfl | hn'
      · exact insert_parentOk_new hval
      · obtain ⟨b, hb, rfl⟩ := List.mem_map.mp hn'
        exact insert_parentOk_old hval hvp hnodup huid hupfx hpok b hb
  · rw [hnets, hnid]
    intro m hm
    rcases List.mem_cons.mp hm with rfl | hm'
    · exact Nat.lt_succ_self _
    · obtain ⟨b, hb, rfl⟩ := List.mem_map.mp hm'
      rw [reparentOne_id]
      exact Nat.lt_succ_of_lt (hbound b hb)

/-! ## Preservation of the containment invariant by Delete -/

theorem promoteOne_id (x : Nat) (newp : Option Nat) (m : Network) :
    (promoteOne x newp m).id = m.id := by
  unfold promoteOne; split <;> rfl

theorem promoteOne_site_id (x : Nat) (newp : Option Nat) (m : Network) :
    (promoteOne x newp m).site_id = m.site_id := by
  unfold promoteOne; split <;> rfl

theorem promoteOne_pfx (x : Nat) (newp : Option Nat) (m : Network) :
    (promoteOne x newp m).pfx = m.pfx := by
  unfold promoteOne; split <;> rfl

theorem promoteOne_parent_pos {x : Nat} {newp : Option Nat} {m : Network}
    (h : m.parent_id = some x) : (promoteOne x newp m).parent_id = newp := by
  unfold promoteOne
  rw [if_pos (by simp [h])]

theorem promoteOne_parent_neg {x : Nat} {newp : Option Nat} {m : Network}
    (h : m.parent_id ≠ some x) : promoteOne x newp m = m := by
  unfold promoteOne
  rw [if_neg (by simp [h])]

/-- Anatomy of a successful Delete. -/
theorem deleteNetwork_ok_elim {db : DB} {u x : Nat} {db' : DB}
    (h : deleteNetwork db u x = .ok db') :
    ∃ n, db.networks.find? (fun m => m.id == x) = some n ∧
      db'.networks =
        (db.networks.filter (fun m => m.id != x)).map
          (promoteOne x n.parent_id) ∧
      db'.next_id = db.next_id ∧
      db'.attributes = db.attributes ∧ db'.sites = db.sites := by
  unfold deleteNetwork at h
  split at h
  · cases h
  rename_i n hfind
  cases h
  exact ⟨n, hfind, rfl, rfl, rfl, rfl⟩

/-- Membership in the post-Delete table. -/
theorem mem_delete_table {nets : List Network} {x : Nat} {newp : Option Nat}
    {y : Network} :
    y ∈ (nets.filter (fun m => m.id != x)).map (promoteOne x newp) ↔
      ∃ b ∈ nets, b.id ≠ x ∧ y = promoteOne x newp b := by
  constructor
  · intro hy
    obtain ⟨b, hb, rfl⟩ := List.mem_map.mp hy
    have hb' := List.mem_filter.mp hb
    exact ⟨b, hb'.1, by simpa using hb'.2, rfl⟩
  · rintro ⟨b, hb, hbx, rfl⟩
    exact List.mem_map_of_mem _ (List.mem_filter.mpr ⟨hb, by simpa using hbx⟩)

section DeletePreservation

variable {nets : List Network} {n : Network} {x : Nat}

/-- After Delete, every surviving node's parent pointer is still correct:
children of the deleted node rise to its old parent, everyone else is
untouched and their most specific container survives. -/
theorem delete_parentOk
    (hval : ∀ m ∈ nets, m.pfx.validB = true)
    (huid : ∀ m ∈ nets, ∀ m' ∈ nets, m.id = m'.id → m = m')
    (hupfx : ∀ m ∈ nets, ∀ m' ∈ nets,
      m.site_id = m'.site_id → m.pfx = m'.pfx → m = m')
    (hpok : ∀ m ∈ nets, ParentOk nets m)
    (hn : n ∈ nets) (hnx : n.id = x)
    (b : Network) (hb : b ∈ nets) (hbx : b.id ≠ x) :
    ParentOk ((nets.filter (fun m => m.id != x)).map (promoteOne x n.parent_id))
      (promoteOne x n.parent_id b) := by
  have hbn : b ≠ n := fun hbn => hbx (hbn ▸ hnx)
  -- two helper facts used repeatedly below
  have hne_of_ne : ∀ c ∈ nets, c ≠ n → c.id ≠ x := by
    intro c hc hcn hcx
    exact hcn (huid c hc n hn (hcx.trans hnx.symm))
  by_cases hcase : b.parent_id = some x
  · -- `b` was a child of the deleted node
    rcases hpok b hb with ⟨hpn, -⟩ | ⟨w, hw, hmscw, hpw⟩
    · rw [hpn] at hcase; cases hcase
    have hwn : w = n := by
      rw [hpw] at hcase
      injection hcase with h'
      exact huid w hw n hn (h'.trans hnx.symm)
    -- so `n` was the most specific container of `b`
    have hmscn : IsMSC nets b.site_id b.pfx n := hwn ▸ hmscw
    have hppos := @promoteOne_parent_pos x n.parent_id b hcase
    -- every other strict container of `b` strictly contains `n`
    have hstrict : ∀ c ∈ nets, c ≠ n → c.site_id = b.site_id →
        c.pfx.SContains b.pfx → c.pfx.SContains n.pfx := by
      intro c hc hcn hcs hcsc
      have h1 : c.pfx.contains n.pfx = true := hmscn.2.2.2 c hc hcs hcsc
      refine ⟨h1, fun hpfx => hcn ?_⟩
      exact hupfx c hc n hn (hcs.trans hmscn.2.1.symm) hpfx
    rcases hpok n hn with ⟨hpnone, hnc⟩ | ⟨w', hw', hmscw', hpw'⟩
    · -- the deleted node was a root: `b` becomes a root
      left
      constructor
      · rw [hppos, hpnone]
      · intro m' hm' hsite hsc
        obtain ⟨c, hc, hcx, rfl⟩ := mem_delete_table.mp hm'
        simp only [promoteOne_pfx, promoteOne_site_id] at hsite hsc
        have hcn : c ≠ n := fun hcn => hcx (hcn ▸ hnx)
        have := hstrict c hc hcn hsite hsc
        exact hnc c hc (hsite.trans hmscn.2.1.symm) this
    · -- `b` rises to the deleted node's own parent
      right
      have hw'n : w' ≠ n := by
        intro hww
        exact Pfx.scontains_irrefl n.pfx (hww ▸ hmscw'.2.2.1)
      have hw'x : w'.id ≠ x := hne_of_ne w' hw' hw'n
      refine ⟨promoteOne x n.parent_id w',
        mem_delete_table.mpr ⟨w', hw', hw'x, rfl⟩, ⟨?_, ?_⟩⟩
      · refine ⟨mem_delete_table.mpr ⟨w', hw', hw'x, rfl⟩, ?_, ?_, ?_⟩
        · rw [promoteOne_site_id, promoteOne_site_id]
          exact hmscw'.2.1.trans hmscn.2.1
        · rw [promoteOne_pfx, promoteOne_pfx]
          exact Pfx.scontains_trans_left (hval w' hw') (hval n hn)
            (hval b hb) hmscw'.2.2.1 hmscn.2.2.1.1
        · intro m' hm' hsite hsc
          obtain ⟨c, hc, hcx, rfl⟩ := mem_delete_table.mp hm'
          simp only [promoteOne_pfx, promoteOne_site_id] at hsite hsc ⊢
          have hcn : c ≠ n := fun hcn => hcx (hcn ▸ hnx)
          have hcsn : c.pfx.SContains n.pfx := hstrict c hc hcn hsite hsc
          exact hmscw'.2.2.2 c hc (hsite.trans hmscn.2.1.symm) hcsn
      · rw [promoteOne_id, hppos, hpw']
  · -- `b` was not a child of the deleted node: nothing changes for it
    have heq := @promoteOne_parent_neg x n.parent_id b hcase
    rw [heq]
    rcases hpok b hb with ⟨hpnone, hnc⟩ | ⟨w, hw, hmscw, hpw⟩
    · left
      refine ⟨hpnone, ?_⟩
      intro m' hm' hsite hsc
      obtain ⟨c, hc, hcx, rfl⟩ := mem_delete_table.mp hm'
      simp only [promoteOne_pfx, promoteOne_site_id] at hsite hsc
      exact hnc c hc hsite hsc
    · right
      have hwn : w ≠ n := by
        intro hww
        exact hcase (by rw [hpw, hww, hnx])
      have hwx : w.id ≠ x := hne_of_ne w hw hwn
      refine ⟨promoteOne x n.parent_id w,
        mem_delete_table.mpr ⟨w, hw, hwx, rfl⟩, ⟨?_, ?_⟩⟩
      · refine ⟨mem_delete_table.mpr ⟨w, hw, hwx, rfl⟩, ?_, ?_, ?_⟩
        · rw [promoteOne_site_id]
          exact hmscw.2.1
        · rw [promoteOne_pfx]
          exact hmscw.2.2.1
        · intro m' hm' hsite hsc
          obtain ⟨c, hc, hcx, rfl⟩ := mem_delete_table.mp hm'
          simp only [promoteOne_pfx, promoteOne_site_id] at hsite hsc ⊢
          exact hmscw.2.2.2 c hc hsite hsc
      · rw [promoteOne_id, hpw]

end DeletePreservation

/-- A successful Delete preserves the whole state invariant. -/
theorem deleteNetwork_preserves_inv {db : DB} {u x : Nat} {db' : DB}
    (hinv : DBInv db) (h : deleteNetwork db u x = .ok db') : DBInv db' := by
  obtain ⟨n, hfind, hnets, hnid, -, -⟩ := deleteNetwork_ok_elim h
  obtain ⟨⟨huid, hupfx, hval, hpok⟩, hbound⟩ := hinv
  have hn : n ∈ db.networks := List.mem_of_find?_eq_some hfind
  have hnx : n.id = x := by
    have := List.find?_some hfind
    simpa using this
  constructor
  · rw [hnets]
    refine ⟨?_, ?_, ?_, ?_⟩
    · intro m1 hm1 m2 hm2 hid
      obtain ⟨b1, hb1, hx1, rfl⟩ := mem_delete_table.mp hm1
      obtain ⟨b2, hb2, hx2, rfl⟩ := mem_delete_table.mp hm2
      rw [promoteOne_id, promoteOne_id] at hid
      rw [huid b1 hb1 b2 hb2 hid]
    · intro m1 hm1 m2 hm2 hsite hpfx
      obtain ⟨b1, hb1, hx1, rfl⟩ := mem_delete_table.mp hm1
      obtain ⟨b2, hb2, hx2, rfl⟩ := mem_delete_table.mp hm2
      simp only [promoteOne_site_id, promoteOne_pfx] at hsite hpfx
      rw [hupfx b1 hb1 b2 hb2 hsite hpfx]
    · intro m hm
      obtain ⟨b, hb, hx', rfl⟩ := mem_delete_table.mp hm
      rw [promoteOne_pfx]
      exact hval b hb
    · intro m hm
      obtain ⟨b, hb, hx', rfl⟩ := mem_delete_table.mp hm
      exact delete_parentOk hval huid hupfx hpok hn hnx b hb hx'
  · rw [hnets, hnid]
    intro m hm
    obtain ⟨b, hb, hx', rfl⟩ := mem_delete_table.mp hm
    rw [promoteOne_id]
    exact hbound b hb

/-! ## Preservation by Update and by non-Network operations -/

/-- A pointwise map that preserves id, Site, prefix and parent pointer
preserves the forest invariant (it may change attribute values). -/
theorem netsInv_map_of_preserve {nets : List Network} {g : Network → Network}
    (hid : ∀ m, (g m).id = m.id) (hsite : ∀ m, (g m).site_id = m.site_id)
    (hpfx : ∀ m, (g m).pfx = m.pfx) (hpar : ∀ m, (g m).parent_id = m.parent_id)
    (h : NetsInv nets) : NetsInv (nets.map g) := by
  obtain ⟨huid, hupfx, hval, hpok⟩ := h
  refine ⟨?_, ?_, ?_, ?_⟩
  · intro m1 hm1 m2 hm2 he
    obtain ⟨b1, hb1, rfl⟩ := List.mem_map.mp hm1
    obtain ⟨b2, hb2, rfl⟩ := List.mem_map.mp hm2
    rw [hid, hid] at he
    rw [huid b1 hb1 b2 hb2 he]
  · intro m1 hm1 m2 hm2 he1 he2
    obtain ⟨b1, hb1, rfl⟩ := List.mem_map.mp hm1
    obtain ⟨b2, hb2, rfl⟩ := List.mem_map.mp hm2
    rw [hsite, hsite] at he1
    rw [hpfx, hpfx] at he2
    rw [hupfx b1 hb1 b2 hb2 he1 he2]
  · intro m hm
    obtain ⟨b, hb, rfl⟩ := List.mem_map.mp hm
    rw [hpfx]
    exact hval b hb
  · intro m hm
    obtain ⟨b, hb, rfl⟩ := List.mem_map.mp hm
    rcases hpok b hb with ⟨hpn, hnc⟩ | ⟨w, hw, hmscw, hpw⟩
    · left
      refine ⟨by rw [hpar]; exact hpn, ?_⟩
      intro m' hm' hs hsc
      obtain ⟨c, hc, rfl⟩ := List.mem_map.mp hm'
      rw [hsite, hsite] at hs
      simp only [hpfx] at hsc
      exact hnc c hc hs hsc
    · right
      refine ⟨g w, List.mem_map_of_mem _ hw, ⟨?_, ?_⟩⟩
      · refine ⟨List.mem_map_of_mem _ hw, ?_, ?_, ?_⟩
        · rw [hsite, hsite]
          exact hmscw.2.1
        · rw [hpfx, hpfx]
          exact hmscw.2.2.1
        · intro m' hm' hs hsc
          obtain ⟨c, hc, rfl⟩ := List.mem_map.mp hm'
          rw [hsite, hsite] at hs
          simp only [hpfx] at hsc ⊢
          exact hmscw.2.2.2 c hc hs hsc
      · rw [hpar, hid, hpw]

/-- Anatomy of a successful attribute-only Update. -/
theorem updateNetwork_ok_elim {db : DB} {u x : Nat}
    {attrs : List (String × String)} {db' : DB}
    (h : updateNetwork db u x attrs = .ok db') :
    ∃ n, db.networks.find? (fun m => m.id == x) = some n ∧
      db'.networks = db.networks.map (fun m =>
        if m.id == x then { m with attributes := attrs } else m) ∧
      db'.next_id = db.next_id ∧
      db'.attributes = db.attributes ∧ db'.sites = db.sites := by
  unfold updateNetwork at h
  split at h
  · cases h
  rename_i n hfind
  split at h
  · cases h
  cases h
  exact ⟨n, hfind, rfl, rfl, rfl, rfl⟩

/-- A successful Update preserves the whole state invariant. -/
theorem updateNetwork_preserves_inv {db : DB} {u x : Nat}
    {attrs : List (String × String)} {db' : DB}
    (hinv : DBInv db) (h : updateNetwork db u x attrs = .ok db') : DBInv db' := by
  obtain ⟨n, hfind, hnets, hnid, -, -⟩ := updateNetwork_ok_elim h
  obtain ⟨hni, hbound⟩ := hinv
  constructor
  · rw [hnets]
    refine netsInv_map_of_preserve ?_ ?_ ?_ ?_ hni <;>
      intro m <;> dsimp only <;> split <;> rfl
  · rw [hnets, hnid]
    intro m hm
    obtain ⟨b, hb, rfl⟩ := List.mem_map.mp hm
    have : (if b.id == x then { b with attributes := attrs } else b).id = b.id := by
      split <;> rfl
    rw [this]
    exact hbound b hb

/-- The state invariant only concerns the Network table and the id
counter: any operation leaving the table unchanged and not lowering the
counter preserves it. -/
theorem dbInv_of_same_networks {db db' : DB} (h : DBInv db)
    (hn : db'.networks = db.networks) (hi : db.next_id ≤ db'.next_id) :
    DBInv db' := by
  refine ⟨by rw [hn]; exact h.1, ?_⟩
  rw [hn]
  intro m hm
  exact Nat.lt_of_lt_of_le (h.2 m hm) hi

theorem createSite_frame {db : DB} {u : Nat} {nm d : String} {db' : DB}
    (h : createSite db u nm d = .ok db') :
    db'.networks = db.networks ∧ db.next_id ≤ db'.next_id := by
  unfold createSite at h
  split at h
  · cases h
  cases h
  exact ⟨rfl, Nat.le_succ _⟩

theorem updateSite_frame {db : DB} {u x : Nat} {nm d : String} {db' : DB}
    (h : updateSite db u x nm d = .ok db') :
    db'.networks = db.networks ∧ db.next_id ≤ db'.next_id := by
  unfold updateSite at h
  split at h
  · cases h
  split at h
  · cases h
  cases h
  exact ⟨rfl, Nat.le_refl _⟩

theorem deleteSite_frame {db : DB} {u x : Nat} {db' : DB}
    (h : deleteSite db u x = .ok db') :
    db'.networks = db.networks ∧ db.next_id ≤ db'.next_id := by
  unfold deleteSite at h
  split at h
  · cases h
  split at h
  · cases h
  cases h
  exact ⟨rfl, Nat.le_refl _⟩

theorem createAttribute_frame {db : DB} {u x : Nat} {nm d : String} {r : Bool}
    {db' : DB} (h : createAttribute db u x nm d r = .ok db') :
    db'.networks = db.networks ∧ db.next_id ≤ db'.next_id := by
  unfold createAttribute at h
  split at h
  · cases h
  split at h
  · cases h
  cases h
  exact ⟨rfl, Nat.le_succ _⟩

theorem updateAttribute_frame {db : DB} {u x : Nat} {d : String} {r : Bool}
    {db' : DB} (h : updateAttribute db u x d r = .ok db') :
    db'.networks = db.networks ∧ db.next_id ≤ db'.next_id := by
  unfold updateAttribute at h
  split at h
  · cases h
  cases h
  exact ⟨rfl, Nat.le_refl _⟩

theorem deleteAttribute_frame {db : DB} {u x : Nat} {db' : DB}
    (h : deleteAttribute db u x = .ok db') :
    db'.networks = db.networks ∧ db.next_id ≤ db'.next_id := by
  unfold deleteAttribute at h
  split at h
  · cases h
  split at h
  · cases h
  cases h
  exact ⟨rfl, Nat.le_refl _⟩

/-- Every successful mutation preserves the state invariant. -/
theorem applyOp_preserves_inv {db db' : DB} {op : Op} (hinv : DBInv db)
    (h : applyOp db op = .ok db') : DBInv db' := by
  cases op with
  | createSite u nm d =>
    obtain ⟨h1, h2⟩ := createSite_frame h
    exact dbInv_of_same_networks hinv h1 h2
  | updateSite u x nm d =>
    obtain ⟨h1, h2⟩ := updateSite_frame h
    exact dbInv_of_same_networks hinv h1 h2
  | deleteSite u x =>
    obtain ⟨h1, h2⟩ := deleteSite_frame h
    exact dbInv_of_same_networks hinv h1 h2
  | createAttribute u x nm d r =>
    obtain ⟨h1, h2⟩ := createAttribute_frame h
    exact dbInv_of_same_networks hinv h1 h2
  | updateAttribute u x d r =>
    obtain ⟨h1, h2⟩ := updateAttribute_frame h
    exact dbInv_of_same_networks hinv h1 h2
  | deleteAttribute u x =>
    obtain ⟨h1, h2⟩ := deleteAttribute_frame h
    exact dbInv_of_same_networks hinv h1 h2
  | createNetwork u s p attrs => exact createNetwork_preserves_inv hinv h
  | updateNetwork u x attrs => exact updateNetwork_preserves_inv hinv h
  | deleteNetwork u x => exact deleteNetwork_preserves_inv hinv h

/-- Transactional execution preserves the state invariant. -/
theorem runOp_preserves_inv {db : DB} {op : Op} (hinv : DBInv db) :
    DBInv (runOp db op) := by
  unfold runOp
  rcases h : applyOp db op with e | db'
  · exact hinv
  · exact applyOp_preserves_inv hinv h

theorem initDB_inv : DBInv initDB := by decide

/-- After any sequence of mutations from the empty state, the state
invariant holds. -/
theorem runOps_inv (ops : List Op) : DBInv (runOps ops) := by
  unfold runOps
  generalize hdb : initDB = db0
  have h0 : DBInv db0 := hdb ▸ initDB_inv
  clear hdb
  induction ops generalizing db0 with
  | nil => exact h0
  | cons op rest ih => exact ih _ (runOp_preserves_inv h0)

/-! ## The ancestor relation along parent pointers -/

/-- Relation: `a` is a proper ancestor of `b` along the chain of parent
pointers
within the table `nets`. -/
inductive Ancestor (nets : List Network) (a : Network) : Network → Prop where
  | parent (b : Network) (ha : a ∈ nets) (hb : b ∈ nets)
      (h : b.parent_id = some a.id) : Ancestor nets a b
  | step (m b : Network) (hm : m ∈ nets) (hb : b ∈ nets)
      (hpar : b.parent_id = some m.id) (h : Ancestor nets a m) :
      Ancestor nets a b

theorem ancestor_mem {nets : List Network} {a b : Network}
    (h : Ancestor nets a b) : a ∈ nets ∧ b ∈ nets := by
  induction h with
  | parent b ha hb hp => exact ⟨ha, hb⟩
  | step m b hm hb hp hanc ih => exact ⟨ih.1, hb⟩

/-- Under the invariant, an ancestor strictly contains its descendant and
lives in the same Site. -/
theorem ancestor_scontains {nets : List Network} (hinv : NetsInv nets)
    {a b : Network} (h : Ancestor nets a b) :
    a.pfx.SContains b.pfx ∧ a.site_id = b.site_id := by
  obtain ⟨huid, hupfx, hval, hpok⟩ := hinv
  induction h with
  | parent b hia hb hp =>
    rcases hpok b hb with ⟨hpn, -⟩ | ⟨w, hw, hmscw, hpw⟩
    · rw [hpn] at hp; cases hp
    · have hwa : w = a := by
        rw [hpw] at hp
        injection hp with h'
        exact huid w hw a hia h'
      rw [← hwa]
      exact ⟨hmscw.2.2.1, hmscw.2.1⟩
  | step m b hm hb hp hanc ih =>
    rcases hpok b hb with ⟨hpn, -⟩ | ⟨w, hw, hmscw, hpw⟩
    · rw [hpn] at hp; cases hp
    · have hwm : w = m := by
        rw [hpw] at hp
        injection hp with h'
        exact huid w hw m hm h'
      rw [hwm] at hmscw
      have hmem := ancestor_mem hanc
      refine ⟨Pfx.scontains_trans_left (hval a hmem.1) (hval m hm)
        (hval b hb) ih.1 hmscw.2.2.1.1, ih.2.trans hmscw.2.1⟩

/-- Under the invariant, a strict container in the same Site is an
ancestor: the whole parent chain of `b` passes through it. -/
theorem scontains_ancestor {nets : List Network} (hinv : NetsInv nets) :
    ∀ b ∈ nets, ∀ a ∈ nets, a.site_id = b.site_id → a.pfx.SContains b.pfx →
      Ancestor nets a b := by
  obtain ⟨huid, hupfx, hval, hpok⟩ := hinv
  have main : ∀ k, ∀ b ∈ nets, b.pfx.plen ≤ k → ∀ a ∈ nets,
      a.site_id = b.site_id → a.pfx.SContains b.pfx → Ancestor nets a b := by
    intro k
    induction k with
    | zero =>
      intro b hb hbk a ha hsite hsc
      have := Pfx.scontains_plen_lt (hval a ha) (hval b hb) hsc
      omega
    | succ k ih =>
      intro b hb hbk a ha hsite hsc
      rcases hpok b hb with ⟨hpn, hnc⟩ | ⟨w, hw, hmscw, hpw⟩
      · exact absurd hsc (hnc a ha hsite)
      · have haw : a.pfx.contains w.pfx = true := hmscw.2.2.2 a ha hsite hsc
        by_cases hpeq : a.pfx = w.pfx
        · have haw' : a = w := hupfx a ha w hw (hsite.trans hmscw.2.1.symm) hpeq
          exact Ancestor.parent b ha hb (by rw [hpw, haw'])
        · have hsaw : a.pfx.SContains w.pfx := ⟨haw, hpeq⟩
          have hwb : w.pfx.plen < b.pfx.plen :=
            Pfx.scontains_plen_lt (hval w hw) (hval b hb) hmscw.2.2.1
          have hanc : Ancestor nets a w :=
            ih w hw (by omega) a ha (hsite.trans hmscw.2.1.symm) hsaw
          exact Ancestor.step w b hw hb hpw hanc
  intro b hb a ha hsite hsc
  exact main b.pfx.plen b hb (Nat.le_refl _) a ha hsite hsc

/-- Under the invariant, a node whose most specific container is `m`
points exactly at `m`. -/
theorem parent_eq_of_isMSC {nets : List Network} (hinv : NetsInv nets)
    {b m : Network} (hb : b ∈ nets)
    (h : IsMSC nets b.site_id b.pfx m) : b.parent_id = some m.id := by
  obtain ⟨huid, hupfx, hval, hpok⟩ := hinv
  rcases hpok b hb with ⟨hpn, hnc⟩ | ⟨w, hw, hmscw, hpw⟩
  · exact absurd h.2.2.1 (hnc m h.1 h.2.1)
  · rw [hpw, IsMSC_unique hval hupfx h hmscw]

/-! ## Claim theorems -/

/-- The spec's running example (§8): one Site, then `10.0.0.0/8`,
`10.0.0.0/16`, `10.0.0.0/24` inserted in that order. -/
def demoOps : List Op :=
  [ .createSite 1 "s1" "",
    .createNetwork 1 1 ⟨.v4, 167772160, 8⟩ [],
    .createNetwork 1 1 ⟨.v4, 167772160, 16⟩ [],
    .createNetwork 1 1 ⟨.v4, 167772160, 24⟩ [] ]

/-- The `10.0.0.0/8` node resulting from `demoOps`. -/
def demoNet8 : Network := ⟨2, 1, ⟨.v4, 167772160, 8⟩, none, []⟩

/-- The `10.0.0.0/16` node resulting from `demoOps`. -/
def demoNet16 : Network := ⟨3, 1, ⟨.v4, 167772160, 16⟩, some 2, []⟩

/-- The `10.0.0.0/24` node resulting from `demoOps`. -/
def demoNet24 : Network := ⟨4, 1, ⟨.v4, 167772160, 24⟩, some 3, []⟩

/-- C1: after any sequence of mutations from the empty state, for all
Networks A, B of one Site: if A strictly contains B by address algebra
then A is an ancestor of B in the parent chain; if neither contains the
other then neither is an ancestor of the other; every node's parent is its
most specific containing Network in the Site (null if none contains it);
and in particular when A is the most specific container of B and B the
most specific container of C, then B.parent = A and C.parent = B. -/
theorem c1_containment_invariant (ops : List Op) (A B : Network)
    (hA : A ∈ (runOps ops).networks) (hB : B ∈ (runOps ops).networks)
    (hsite : A.site_id = B.site_id) :
    (A.pfx.SContains B.pfx → Ancestor (runOps ops).networks A B) ∧
    ((A.pfx.contains B.pfx = false ∧ B.pfx.contains A.pfx = false) →
      ¬ Ancestor (runOps ops).networks A B ∧
      ¬ Ancestor (runOps ops).networks B A) ∧
    ParentOk (runOps ops).networks B ∧
    (∀ C ∈ (runOps ops).networks,
      IsMSC (runOps ops).networks B.site_id B.pfx A →
      IsMSC (runOps ops).networks C.site_id C.pfx B →
        B.parent_id = some A.id ∧ C.parent_id = some B.id) := by
  have hinv := (runOps_inv ops).1
  refine ⟨?_, ?_, ?_, ?_⟩
  · intro hsc
    exact scontains_ancestor hinv B hB A hA hsite hsc
  · rintro ⟨h1, h2⟩
    constructor
    · intro hanc
      have hc := (ancestor_scontains hinv hanc).1.1
      rw [h1] at hc
      cases hc
    · intro hanc
      have hc := (ancestor_scontains hinv hanc).1.1
      rw [h2] at hc
      cases hc
  · exact hinv.2.2.2 B hB
  · intro C hC hAB hBC
    exact ⟨parent_eq_of_isMSC hinv hB hAB, parent_eq_of_isMSC hinv hC hBC⟩

/-- Witness for C1: on the spec's running example, the hypotheses hold for
A = `10.0.0.0/8` and B = `10.0.0.0/16` and the theorem applies. -/
theorem c1_containment_invariant_witness :
    demoNet8 ∈ (runOps demoOps).networks ∧
    demoNet16 ∈ (runOps demoOps).networks ∧
    demoNet8.site_id = demoNet16.site_id ∧
    ((demoNet8.pfx.SContains demoNet16.pfx →
        Ancestor (runOps demoOps).networks demoNet8 demoNet16) ∧
      ((demoNet8.pfx.contains demoNet16.pfx = false ∧
          demoNet16.pfx.contains demoNet8.pfx = false) →
        ¬ Ancestor (runOps demoOps).networks demoNet8 demoNet16 ∧
        ¬ Ancestor (runOps demoOps).networks demoNet16 demoNet8) ∧
      ParentOk (runOps demoOps).networks demoNet16 ∧
      (∀ C ∈ (runOps demoOps).networks,
        IsMSC (runOps demoOps).networks demoNet16.site_id demoNet16.pfx
          demoNet8 →
        IsMSC (runOps demoOps).networks C.site_id C.pfx demoNet16 →
          demoNet16.parent_id = some demoNet8.id ∧
          C.parent_id = some demoNet16.id)) :=
  ⟨by decide, by decide, by decide,
    c1_containment_invariant demoOps demoNet8 demoNet16
      (by decide) (by decide) (by decide)⟩

/-- C2: on an invariant-satisfying state, Insert gives the new node the
most specific existing container as parent (none when no Network contains
it), re-points exactly those children of that parent which the new node
contains, and touches nothing else. -/
theorem c2_insert_reparenting {db : DB} {u s : Nat} {p : Pfx}
    {attrs : List (String × String)} {db' : DB} (hinv : DBInv db)
    (h : createNetwork db u s p attrs = .ok db') :
    ∃ newNet ∈ db'.networks,
      newNet.id = db.next_id ∧ newNet.site_id = s ∧ newNet.pfx = p ∧
      ((∃ P, IsMSC db.networks s p P ∧ newNet.parent_id = some P.id) ∨
        (NoContainer db.networks s p ∧ newNet.parent_id = none)) ∧
      (∀ m ∈ db.networks, ∃ m' ∈ db'.networks,
        m'.id = m.id ∧ m'.site_id = m.site_id ∧ m'.pfx = m.pfx ∧
        m'.parent_id =
          (if m.site_id = s ∧ m.parent_id = newNet.parent_id ∧
              p.contains m.pfx = true
            then some db.next_id else m.parent_id)) ∧
      (∀ m' ∈ db'.networks,
        m'.id = db.next_id ∨ ∃ m ∈ db.networks, m'.id = m.id) := by
  obtain ⟨hvp, hnodup, hnets, hnid, -, -⟩ := createNetwork_ok_elim h
  obtain ⟨⟨huid, hupfx, hval, hpok⟩, hbound⟩ := hinv
  refine ⟨⟨db.next_id, s, p, insertParentId db.networks s p, attrs⟩,
    by rw [hnets]; exact List.mem_cons_self _ _, rfl, rfl, rfl, ?_, ?_, ?_⟩
  · rcases hq : argmaxPlen (containersOf db.networks s p) with - | q
    · right
      exact ⟨insertParentId_none hq, by simp [insertParentId, hq]⟩
    · left
      exact ⟨q, insertParentId_some hval hq, by simp [insertParentId, hq]⟩
  · intro m hm
    refine ⟨reparentOne s p (insertParentId db.networks s p) db.next_id m,
      by rw [hnets]; exact List.mem_cons_of_mem _ (List.mem_map_of_mem _ hm),
      reparentOne_id _ _ _ _ _, reparentOne_site_id _ _ _ _ _,
      reparentOne_pfx _ _ _ _ _, ?_⟩
    rcases reparentOne_cases s p (insertParentId db.networks s p) db.next_id m
      with ⟨⟨h1, h2, h3⟩, hpar⟩ | ⟨hcond, heq⟩
    · rw [hpar, if_pos ⟨h1, h2, h3⟩]
    · rw [heq, if_neg hcond]
  · intro m' hm'
    rw [hnets] at hm'
    rcases List.mem_cons.mp hm' with rfl | hm''
    · exact Or.inl rfl
    · obtain ⟨b, hb, rfl⟩ := List.mem_map.mp hm''
      exact Or.inr ⟨b, hb, reparentOne_id _ _ _ _ _⟩

/-- The pre-state for the C2 witness: a Site holding `10.0.0.0/8` with
child `10.0.0.0/24`. -/
def c2db : DB :=
  runOps [ .createSite 1 "s1" "",
    .createNetwork 1 1 ⟨.v4, 167772160, 8⟩ [],
    .createNetwork 1 1 ⟨.v4, 167772160, 24⟩ [] ]

/-- The post-state for the C2 witness: `10.0.0.0/16` inserted between
them. -/
def c2db' : DB := runOp c2db (.createNetwork 1 1 ⟨.v4, 167772160, 16⟩ [])

/-- Witness for C2: inserting `10.0.0.0/16` into a Site holding
`10.0.0.0/8` with child `10.0.0.0/24` satisfies the hypotheses. -/
theorem c2_insert_reparenting_witness :
    DBInv c2db ∧
    createNetwork c2db 1 1 ⟨.v4, 167772160, 16⟩ [] = .ok c2db' ∧
    (∃ newNet ∈ c2db'.networks,
      newNet.id = c2db.next_id ∧ newNet.site_id = 1 ∧
      newNet.pfx = ⟨.v4, 167772160, 16⟩ ∧
      ((∃ P, IsMSC c2db.networks 1 ⟨.v4, 167772160, 16⟩ P ∧
          newNet.parent_id = some P.id) ∨
        (NoContainer c2db.networks 1 ⟨.v4, 167772160, 16⟩ ∧
          newNet.parent_id = none)) ∧
      (∀ m ∈ c2db.networks, ∃ m' ∈ c2db'.networks,
        m'.id = m.id ∧ m'.site_id = m.site_id ∧ m'.pfx = m.pfx ∧
        m'.parent_id =
          (if m.site_id = 1 ∧ m.parent_id = newNet.parent_id ∧
              Pfx.contains ⟨.v4, 167772160, 16⟩ m.pfx = true
            then some c2db.next_id else m.parent_id)) ∧
      (∀ m' ∈ c2db'.networks,
        m'.id = c2db.next_id ∨ ∃ m ∈ c2db.networks, m'.id = m.id)) :=
  ⟨by decide, rfl,
    @c2_insert_reparenting c2db 1 1 ⟨.v4, 167772160, 16⟩ [] c2db'
      (by decide) rfl⟩

/-- C3: deleting a Network re-points every former child to the deleted
node's former parent, removes the node, and changes no other Network. -/
theorem c3_delete_promotion {db : DB} {u x : Nat} {db' : DB} {n : Network}
    (hfind : db.networks.find? (fun m => m.id == x) = some n)
    (h : deleteNetwork db u x = .ok db') :
    (∀ m' ∈ db'.networks, m'.id ≠ x) ∧
    (∀ m ∈ db.networks, m.id ≠ x → ∃ m' ∈ db'.networks,
      m'.id = m.id ∧ m'.site_id = m.site_id ∧ m'.pfx = m.pfx ∧
      m'.attributes = m.attributes ∧
      m'.parent_id =
        (if m.parent_id = some x then n.parent_id else m.parent_id)) ∧
    (∀ m' ∈ db'.networks, ∃ m ∈ db.networks, m.id ≠ x ∧ m'.id = m.id) := by
  obtain ⟨n', hfind', hnets, -, -, -⟩ := deleteNetwork_ok_elim h
  rw [hfind] at hfind'
  injection hfind' with hnn
  subst hnn
  refine ⟨?_, ?_, ?_⟩
  · intro m' hm'
    rw [hnets] at hm'
    obtain ⟨b, hb, hbx, rfl⟩ := mem_delete_table.mp hm'
    rw [promoteOne_id]
    exact hbx
  · intro m hm hmx
    refine ⟨promoteOne x n.parent_id m,
      by rw [hnets]; exact mem_delete_table.mpr ⟨m, hm, hmx, rfl⟩,
      promoteOne_id _ _ _, promoteOne_site_id _ _ _, promoteOne_pfx _ _ _,
      ?_, ?_⟩
    · unfold promoteOne
      split <;> rfl
    · by_cases hc : m.parent_id = some x
      · rw [promoteOne_parent_pos hc, if_pos hc]
      · rw [promoteOne_parent_neg hc, if_neg hc]
  · intro m' hm'
    rw [hnets] at hm'
    obtain ⟨b, hb, hbx, rfl⟩ := mem_delete_table.mp hm'
    exact ⟨b, hb, hbx, promoteOne_id _ _ _⟩

/-- Witness for C3: deleting `10.0.0.0/16` from the spec's running
example satisfies the hypotheses. -/
theorem c3_delete_promotion_witness :
    ((runOps demoOps).networks.find? (fun m => m.id == 3) = some demoNet16) ∧
    (deleteNetwork (runOps demoOps) 1 3 =
      .ok (runOp (runOps demoOps) (.deleteNetwork 1 3))) ∧
    ((∀ m' ∈ (runOp (runOps demoOps) (.deleteNetwork 1 3)).networks,
        m'.id ≠ 3) ∧
      (∀ m ∈ (runOps demoOps).networks, m.id ≠ 3 →
        ∃ m' ∈ (runOp (runOps demoOps) (.deleteNetwork 1 3)).networks,
          m'.id = m.id ∧ m'.site_id = m.site_id ∧ m'.pfx = m.pfx ∧
          m'.attributes = m.attributes ∧
          m'.parent_id =
            (if m.parent_id = some 3 then demoNet16.parent_id
              else m.parent_id)) ∧
      (∀ m' ∈ (runOp (runOps demoOps) (.deleteNetwork 1 3)).networks,
        ∃ m ∈ (runOps demoOps).networks, m.id ≠ 3 ∧ m'.id = m.id)) :=
  ⟨by decide, rfl,
    @c3_delete_promotion (runOps demoOps) 1 3
      (runOp (runOps demoOps) (.deleteNetwork 1 3)) demoNet16
      (by decide) rfl⟩

/-! ## C4: change completeness -/

/-- The audit event named by an operation. -/
def opEvent : Op → Event
  | .createSite .. => .create
  | .updateSite .. => .update
  | .deleteSite .. => .delete
  | .createAttribute .. => .create
  | .updateAttribute .. => .update
  | .deleteAttribute .. => .delete
  | .createNetwork .. => .create
  | .updateNetwork .. => .update
  | .deleteNetwork .. => .delete

/-- The resource kind mutated by an operation. -/
def opRType : Op → RType
  | .createSite .. => .site
  | .updateSite .. => .site
  | .deleteSite .. => .site
  | .createAttribute .. => .networkAttribute
  | .updateAttribute .. => .networkAttribute
  | .deleteAttribute .. => .networkAttribute
  | .createNetwork .. => .network
  | .updateNetwork .. => .network
  | .deleteNetwork .. => .network

/-- The id of the entity mutated by an operation against `db`: for a
create, the id assigned to the new entity; otherwise the addressed id. -/
def opResourceId : Op → DB → Nat
  | .createSite .., db => db.next_id
  | .updateSite _ x _ _, _ => x
  | .deleteSite _ x, _ => x
  | .createAttribute .., db => db.next_id
  | .updateAttribute _ x _ _, _ => x
  | .deleteAttribute _ x, _ => x
  | .createNetwork .., db => db.next_id
  | .updateNetwork _ x _, _ => x
  | .deleteNetwork _ x, _ => x

/-- A failed mutation leaves the transactional state untouched. -/
theorem runOp_error {db : DB} {op : Op} {e : Err}
    (h : applyOp db op = .error e) : runOp db op = db := by
  unfold runOp
  rw [h]

/-- C4: every successful mutation appends exactly one Change whose event
names the operation and whose resource id is the mutated entity's id (for
creates, an entity with that id exists afterwards in the mutated table;
for updates it still exists; for deletes it existed before); a failed
mutation appends no Change and leaves all state unchanged. -/
theorem c4_change_completeness (db : DB) (op : Op) :
    (∀ db', applyOp db op = .ok db' →
      ∃ c, db'.changes = c :: db.changes ∧
        c.event = opEvent op ∧ c.resource_type = opRType op ∧
        c.resource_id = opResourceId op db ∧
        (opRType op = RType.site →
          ∃ e ∈ (if opEvent op = Event.delete then db else db').sites,
            e.id = c.resource_id) ∧
        (opRType op = RType.networkAttribute →
          ∃ e ∈ (if opEvent op = Event.delete then db else db').attributes,
            e.id = c.resource_id) ∧
        (opRType op = RType.network →
          ∃ e ∈ (if opEvent op = Event.delete then db else db').networks,
            e.id = c.resource_id)) ∧
    (∀ e, applyOp db op = .error e → runOp db op = db) := by
  refine ⟨?_, fun e h => runOp_error h⟩
  intro db' h
  cases op with
  | createSite u nm d =>
    rw [applyOp] at h
    unfold createSite at h
    split at h
    · cases h
    cases h
    refine ⟨_, rfl, rfl, rfl, rfl, ?_, ?_, ?_⟩
    · intro _
      exact ⟨⟨db.next_id, nm, d⟩, List.mem_cons_self _ _, rfl⟩
    · intro hco
      cases hco
    · intro hco
      cases hco
  | updateSite u x nm d =>
    rw [applyOp] at h
    unfold updateSite at h
    split at h
    · cases h
    rename_i s0 hfind
    split at h
    · cases h
    cases h
    refine ⟨_, rfl, rfl, rfl, rfl, ?_, ?_, ?_⟩
    · intro _
      have hs0 : s0 ∈ db.sites := List.mem_of_find?_eq_some hfind
      have hs0x : s0.id = x := by simpa using List.find?_some hfind
      refine ⟨if s0.id == x then { s0 with name := nm, description := d }
          else s0,
        List.mem_map_of_mem _ hs0, ?_⟩
      rw [if_pos (by simp [hs0x])]
      exact hs0x
    · intro hco
      cases hco
    · intro hco
      cases hco
  | deleteSite u x =>
    rw [applyOp] at h
    unfold deleteSite at h
    split at h
    · cases h
    rename_i s0 hfind
    split at h
    · cases h
    cases h
    refine ⟨_, rfl, rfl, rfl, rfl, ?_, ?_, ?_⟩
    · intro _
      have hs0 : s0 ∈ db.sites := List.mem_of_find?_eq_some hfind
      have hs0x : s0.id = x := by simpa using List.find?_some hfind
      exact ⟨s0, hs0, hs0x⟩
    · intro hco
      cases hco
    · intro hco
      cases hco
  | createAttribute u x nm d r =>
    rw [applyOp] at h
    unfold createAttribute at h
    split at h
    · cases h
    split at h
    · cases h
    cases h
    refine ⟨_, rfl, rfl, rfl, rfl, ?_, ?_, ?_⟩
    · intro hco
      cases hco
    · intro _
      exact ⟨⟨db.next_id, x, nm, d, r⟩, List.mem_cons_self _ _, rfl⟩
    · intro hco
      cases hco
  | updateAttribute u x d r =>
    rw [applyOp] at h
    unfold updateAttribute at h
    split at h
    · cases h
    rename_i a0 hfind
    cases h
    refine ⟨_, rfl, rfl, rfl, rfl, ?_, ?_, ?_⟩
    · intro hco
      cases hco
    · intro _
      have ha0 : a0 ∈ db.attributes := List.mem_of_find?_eq_some hfind
      have ha0x : a0.id = x := by simpa using List.find?_some hfind
      refine ⟨if a0.id == x then { a0 with description := d, required := r }
          else a0,
        List.mem_map_of_mem _ ha0, ?_⟩
      rw [if_pos (by simp [ha0x])]
      exact ha0x
    · intro hco
      cases hco
  | deleteAttribute u x =>
    rw [applyOp] at h
    unfold deleteAttribute at h
    split at h
    · cases h
    rename_i a0 hfind
    split at h
    · cases h
    cases h
    refine ⟨_, rfl, rfl, rfl, rfl, ?_, ?_, ?_⟩
    · intro hco
      cases hco
    · intro _
      have ha0 : a0 ∈ db.attributes := List.mem_of_find?_eq_some hfind
      have ha0x : a0.id = x := by simpa using List.find?_some hfind
      exact ⟨a0, ha0, ha0x⟩
    · intro hco
      cases hco
  | createNetwork u s p attrs =>
    obtain ⟨-, -, hnets, -, -, -⟩ := createNetwork_ok_elim h
    rw [applyOp] at h
    unfold createNetwork at h
    split at h
    · cases h
    split at h
    · cases h
    split at h
    · cases h
    split at h
    · cases h
    cases h
    refine ⟨_, rfl, rfl, rfl, rfl, ?_, ?_, ?_⟩
    · intro hco
      cases hco
    · intro hco
      cases hco
    · intro _
      exact ⟨⟨db.next_id, s, p, insertParentId db.networks s p, attrs⟩,
        List.mem_cons_self _ _, rfl⟩
  | updateNetwork u x attrs =>
    rw [applyOp] at h
    unfold updateNetwork at h
    split at h
    · cases h
    rename_i n0 hfind
    split at h
    · cases h
    cases h
    refine ⟨_, rfl, rfl, rfl, rfl, ?_, ?_, ?_⟩
    · intro hco
      cases hco
    · intro hco
      cases hco
    · intro _
      have hn0 : n0 ∈ db.networks := List.mem_of_find?_eq_some hfind
      have hn0x : n0.id = x := by simpa using List.find?_some hfind
      refine ⟨if n0.id == x then { n0 with attributes := attrs } else n0,
        List.mem_map_of_mem _ hn0, ?_⟩
      rw [if_pos (by simp [hn0x])]
      exact hn0x
  | deleteNetwork u x =>
    rw [applyOp] at h
    unfold deleteNetwork at h
    split at h
    · cases h
    rename_i n0 hfind
    cases h
    refine ⟨_, rfl, rfl, rfl, rfl, ?_, ?_, ?_⟩
    · intro hco
      cases hco
    · intro hco
      cases hco
    · intro _
      have hn0 : n0 ∈ db.networks := List.mem_of_find?_eq_some hfind
      have hn0x : n0.id = x := by simpa using List.find?_some hfind
      exact ⟨n0, hn0, hn0x⟩

/-- The pre-state for the C4 witness. -/
def c4db0 : DB := runOps [.createSite 1 "s1" ""]

/-- The operation for the C4 witness. -/
def c4op : Op := .createNetwork 1 1 ⟨.v4, 167772160, 8⟩ []

/-- The post-state for the C4 witness. -/
def c4db1 : DB := runOp c4db0 c4op

/-- Witness for C4 at the concrete running example's first insert. -/
theorem c4_change_completeness_witness :
    ∃ c, c4db1.changes = c :: c4db0.changes ∧
      c.event = opEvent c4op ∧ c.resource_type = opRType c4op ∧
      c.resource_id = opResourceId c4op c4db0 ∧
      (opRType c4op = RType.site →
        ∃ e ∈ (if opEvent c4op = Event.delete then c4db0 else c4db1).sites,
          e.id = c.resource_id) ∧
      (opRType c4op = RType.networkAttribute →
        ∃ e ∈ (if opEvent c4op = Event.delete then c4db0
            else c4db1).attributes,
          e.id = c.resource_id) ∧
      (opRType c4op = RType.network →
        ∃ e ∈ (if opEvent c4op = Event.delete then c4db0
            else c4db1).networks,
          e.id = c.resource_id) :=
  (c4_change_completeness c4db0 c4op).1 c4db1 rfl

/-! ## C5: duplicate rejection -/

/-- When all of Insert's checks pass, it succeeds with the described
state. -/
theorem createNetwork_ok_intro {db : DB} {u s : Nat} {p : Pfx}
    {attrs : List (String × String)}
    (hsite : (db.sites.any fun x => x.id == s) = true)
    (hv : p.validB = true)
    (hdup : (db.networks.any fun m => m.site_id == s && m.pfx == p) = false)
    (hva : validateAttrs db.attributes s attrs = .ok ()) :
    createNetwork db u s p attrs = .ok
      { db with
          networks :=
            (⟨db.next_id, s, p, insertParentId db.networks s p, attrs⟩ :
                Network) ::
              db.networks.map
                (reparentOne s p (insertParentId db.networks s p) db.next_id),
          next_id := db.next_id + 1,
          clock := db.clock + 1,
          changes :=
            mkChange db u s .create .network db.next_id :: db.changes } := by
  unfold createNetwork
  rw [hsite, hv, hdup, hva]
  rfl

/-- C5: inserting an identical `(address, prefix_length, family)` into a
Site that already holds it fails with Conflict and changes nothing, while
inserting the same prefix into two different Sites succeeds in both. -/
theorem c5_duplicate_rejection (db : DB) (u : Nat) (p q : Pfx)
    (attrs : List (String × String)) (s s1 s2 : Nat) :
    ((db.sites.any fun x => x.id == s) = true → p.validB = true →
      (∃ n ∈ db.networks, n.site_id = s ∧ n.pfx = p) →
      createNetwork db u s p attrs = .error .conflict ∧
      runOp db (.createNetwork u s p attrs) = db) ∧
    ((db.sites.any fun x => x.id == s1) = true →
      (db.sites.any fun x => x.id == s2) = true →
      q.validB = true → s1 ≠ s2 →
      (∀ n ∈ db.networks, n.pfx ≠ q) →
      validateAttrs db.attributes s1 attrs = .ok () →
      validateAttrs db.attributes s2 attrs = .ok () →
      ∃ db1 db2, createNetwork db u s1 q attrs = .ok db1 ∧
        createNetwork db1 u s2 q attrs = .ok db2) := by
  constructor
  · intro hsite hvp hex
    have hdup : (db.networks.any fun m => m.site_id == s && m.pfx == p) =
        true := by
      obtain ⟨n, hn, h1, h2⟩ := hex
      exact List.any_eq_true.mpr ⟨n, hn, by simp [h1, h2]⟩
    have hcn : createNetwork db u s p attrs = .error .conflict := by
      unfold createNetwork
      rw [hsite, hvp, hdup]
      simp
    refine ⟨hcn, ?_⟩
    unfold runOp
    simp only [applyOp]
    rw [hcn]
  · intro hs1 hs2 hvq hne hnq hva1 hva2
    have hdup1 : (db.networks.any fun m => m.site_id == s1 && m.pfx == q) =
        false := by
      simp only [List.any_eq_false]
      intro m hm
      simp [hnq m hm]
    have h1 := @createNetwork_ok_intro db u s1 q attrs hs1 hvq hdup1 hva1
    set db1 : DB :=
      { db with
          networks :=
            (⟨db.next_id, s1, q, insertParentId db.networks s1 q, attrs⟩ :
                Network) ::
              db.networks.map
                (reparentOne s1 q (insertParentId db.networks s1 q)
                  db.next_id),
          next_id := db.next_id + 1,
          clock := db.clock + 1,
          changes :=
            mkChange db u s1 .create .network db.next_id :: db.changes }
      with hdb1
    have hdup2 : (db1.networks.any fun m => m.site_id == s2 && m.pfx == q) =
        false := by
      simp only [List.any_eq_false]
      intro m hm
      rcases List.mem_cons.mp hm with rfl | hm'
      · simp [hne]
      · obtain ⟨b, hb, rfl⟩ := List.mem_map.mp hm'
        simp [reparentOne_site_id, reparentOne_pfx, hnq b hb]
    have h2 := @createNetwork_ok_intro db1 u s2 q attrs hs2 hvq hdup2 hva2
    exact ⟨db1, _, h1, h2⟩

/-- The state for the C5 witness: two Sites, `10.0.0.0/8` in Site 1. -/
def c5db : DB :=
  runOps [ .createSite 1 "s1" "", .createSite 1 "s2" "",
    .createNetwork 1 1 ⟨.v4, 167772160, 8⟩ [] ]

/-- Witness for C5: re-inserting `10.0.0.0/8` into Site 1 conflicts and
changes nothing; inserting `10.0.0.0/16` into Site 1 and then Site 2
succeeds in both. -/
theorem c5_duplicate_rejection_witness :
    (createNetwork c5db 1 1 ⟨.v4, 167772160, 8⟩ [] = .error .conflict ∧
      runOp c5db (.createNetwork 1 1 ⟨.v4, 167772160, 8⟩ []) = c5db) ∧
    (∃ db1 db2,
      createNetwork c5db 1 1 ⟨.v4, 167772160, 16⟩ [] = .ok db1 ∧
      createNetwork db1 1 2 ⟨.v4, 167772160, 16⟩ [] = .ok db2) :=
  ⟨(c5_duplicate_rejection c5db 1 ⟨.v4, 167772160, 8⟩
        ⟨.v4, 167772160, 16⟩ [] 1 1 2).1
      (by decide) (by decide) (by decide),
    (c5_duplicate_rejection c5db 1 ⟨.v4, 167772160, 8⟩
        ⟨.v4, 167772160, 16⟩ [] 1 1 2).2
      (by decide) (by decide) (by decide) (by decide) (by decide) rfl rfl⟩

/-! ## C7: attribute schema validation -/

/-- Some NetworkAttribute of the Site is required but the proposed map
carries no non-empty value for it. -/
def MissingRequired (defs : List NetworkAttribute) (sid : Nat)
    (attrs : List (String × String)) : Prop :=
  ∃ d ∈ defs, d.site_id = sid ∧ d.required = true ∧
    ∀ kv ∈ attrs, kv.1 = d.name → kv.2 = ""

/-- Some proposed key does not exist in the Site's schema. -/
def UnknownKey (defs : List NetworkAttribute) (sid : Nat)
    (attrs : List (String × String)) : Prop :=
  ∃ kv ∈ attrs, ∀ d ∈ defs, d.site_id = sid → d.name ≠ kv.1

instance (defs : List NetworkAttribute) (sid : Nat)
    (attrs : List (String × String)) :
    Decidable (MissingRequired defs sid attrs) := by
  unfold MissingRequired; infer_instance

instance (defs : List NetworkAttribute) (sid : Nat)
    (attrs : List (String × String)) :
    Decidable (UnknownKey defs sid attrs) := by
  unfold UnknownKey; infer_instance

theorem missing_bool_iff (defs : List NetworkAttribute) (sid : Nat)
    (attrs : List (String × String)) :
    (defs.any fun d => d.site_id == sid && d.required &&
        !(attrs.any fun kv => kv.1 == d.name && kv.2 != "")) = true ↔
      MissingRequired defs sid attrs := by
  simp [MissingRequired, List.any_eq_true, Bool.and_eq_true,
    Bool.not_eq_true', List.any_eq_false, and_assoc]

theorem unknown_bool_iff (defs : List NetworkAttribute) (sid : Nat)
    (attrs : List (String × String)) :
    (attrs.any fun kv =>
        !(defs.any fun d => d.site_id == sid && d.name == kv.1)) = true ↔
      UnknownKey defs sid attrs := by
  simp [UnknownKey, List.any_eq_true, Bool.and_eq_true,
    Bool.not_eq_true', List.any_eq_false]

theorem validateAttrs_eq_error_iff (defs : List NetworkAttribute) (sid : Nat)
    (attrs : List (String × String)) :
    validateAttrs defs sid attrs = .error .validationError ↔
      MissingRequired defs sid attrs ∨ UnknownKey defs sid attrs := by
  unfold validateAttrs
  split_ifs with h1 h2
  · exact iff_of_true rfl (Or.inl ((missing_bool_iff defs sid attrs).mp h1))
  · exact iff_of_true rfl (Or.inr ((unknown_bool_iff defs sid attrs).mp h2))
  · constructor
    · intro hcon
      cases hcon
    · rintro (hm | hu)
      · exact absurd ((missing_bool_iff defs sid attrs).mpr hm) h1
      · exact absurd ((unknown_bool_iff defs sid attrs).mpr hu) h2

theorem validateAttrs_eq_ok_iff (defs : List NetworkAttribute) (sid : Nat)
    (attrs : List (String × String)) :
    validateAttrs defs sid attrs = .ok () ↔
      ¬ MissingRequired defs sid attrs ∧ ¬ UnknownKey defs sid attrs := by
  unfold validateAttrs
  split_ifs with h1 h2
  · refine iff_of_false (by simp) ?_
    intro hc
    exact hc.1 ((missing_bool_iff defs sid attrs).mp h1)
  · refine iff_of_false (by simp) ?_
    intro hc
    exact hc.2 ((unknown_bool_iff defs sid attrs).mp h2)
  · refine iff_of_true rfl ⟨?_, ?_⟩
    · intro hm
      exact h1 ((missing_bool_iff defs sid attrs).mpr hm)
    · intro hu
      exact h2 ((unknown_bool_iff defs sid attrs).mpr hu)

/-- Update after a successful lookup reduces to attribute validation. -/
theorem updateNetwork_step {db : DB} {u x : Nat} {n : Network}
    {attrs : List (String × String)}
    (hfind : db.networks.find? (fun m => m.id == x) = some n) :
    updateNetwork db u x attrs =
      match validateAttrs db.attributes n.site_id attrs with
      | .error e => .error e
      | .ok _ =>
        .ok { db with
                networks := db.networks.map (fun m =>
                  if m.id == x then { m with attributes := attrs } else m),
                clock := db.clock + 1,
                changes :=
                  mkChange db u n.site_id .update .network x ::
                    db.changes } := by
  unfold updateNetwork
  rw [hfind]

/-- C7: creating or updating a Network whose attribute map misses a
non-empty value for a required NetworkAttribute of the Site, or carries a
key outside the schema, fails with ValidationError and persists nothing;
a map satisfying the schema passes validation and the mutation succeeds. -/
theorem c7_attribute_validation (db : DB) (u s x : Nat) (p : Pfx)
    (attrs : List (String × String)) (n : Network) :
    ((db.sites.any fun y => y.id == s) = true → p.validB = true →
      (db.networks.any fun m => m.site_id == s && m.pfx == p) = false →
      (MissingRequired db.attributes s attrs ∨
        UnknownKey db.attributes s attrs) →
      createNetwork db u s p attrs = .error .validationError ∧
      runOp db (.createNetwork u s p attrs) = db) ∧
    ((db.sites.any fun y => y.id == s) = true → p.validB = true →
      (db.networks.any fun m => m.site_id == s && m.pfx == p) = false →
      ¬ MissingRequired db.attributes s attrs →
      ¬ UnknownKey db.attributes s attrs →
      ∃ db', createNetwork db u s p attrs = .ok db') ∧
    (db.networks.find? (fun m => m.id == x) = some n →
      (MissingRequired db.attributes n.site_id attrs ∨
        UnknownKey db.attributes n.site_id attrs) →
      updateNetwork db u x attrs = .error .validationError ∧
      runOp db (.updateNetwork u x attrs) = db) ∧
    (db.networks.find? (fun m => m.id == x) = some n →
      ¬ MissingRequired db.attributes n.site_id attrs →
      ¬ UnknownKey db.attributes n.site_id attrs →
      ∃ db', updateNetwork db u x attrs = .ok db') := by
  refine ⟨?_, ?_, ?_, ?_⟩
  · intro hsite hvp hdup hbad
    have hva : validateAttrs db.attributes s attrs = .error .validationError :=
      (validateAttrs_eq_error_iff db.attributes s attrs).mpr hbad
    have hcn : createNetwork db u s p attrs = .error .validationError := by
      unfold createNetwork
      rw [hsite, hvp, hdup, hva]
      rfl
    refine ⟨hcn, ?_⟩
    unfold runOp
    simp only [applyOp]
    rw [hcn]
  · intro hsite hvp hdup hm hu
    have hva : validateAttrs db.attributes s attrs = .ok () :=
      (validateAttrs_eq_ok_iff db.attributes s attrs).mpr ⟨hm, hu⟩
    exact ⟨_, createNetwork_ok_intro hsite hvp hdup hva⟩
  · intro hfind hbad
    have hva : validateAttrs db.attributes n.site_id attrs =
        .error .validationError :=
      (validateAttrs_eq_error_iff db.attributes n.site_id attrs).mpr hbad
    have hcn : updateNetwork db u x attrs = .error .validationError := by
      rw [updateNetwork_step hfind, hva]
    refine ⟨hcn, ?_⟩
    unfold runOp
    simp only [applyOp]
    rw [hcn]
  · intro hfind hm hu
    have hva : validateAttrs db.attributes n.site_id attrs = .ok () :=
      (validateAttrs_eq_ok_iff db.attributes n.site_id attrs).mpr ⟨hm, hu⟩
    refine ⟨{ db with
        networks := db.networks.map (fun m =>
          if m.id == x then { m with attributes := attrs } else m),
        clock := db.clock + 1,
        changes :=
          mkChange db u n.site_id .update .network x :: db.changes }, ?_⟩
    rw [updateNetwork_step hfind, hva]

/-- The state for the C7 witness: Site 1 with required attribute `owner`
and Network `10.0.0.0/8` carrying `owner = "ops"`. -/
def c7db : DB :=
  runOps [ .createSite 1 "s1" "",
    .createAttribute 1 1 "owner" "" true,
    .createNetwork 1 1 ⟨.v4, 167772160, 8⟩ [("owner", "ops")] ]

/-- The Network of `c7db`. -/
def c7net : Network := ⟨3, 1, ⟨.v4, 167772160, 8⟩, none, [("owner", "ops")]⟩

/-- Witness for C7: creating `10.0.0.0/16` in Site 1 without `owner`
fails ValidationError and with `owner = "ops"` succeeds; likewise for
attribute-only updates of the existing Network. -/
theorem c7_attribute_validation_witness :
    (createNetwork c7db 1 1 ⟨.v4, 167772160, 16⟩ [] =
        .error .validationError ∧
      runOp c7db (.createNetwork 1 1 ⟨.v4, 167772160, 16⟩ []) = c7db) ∧
    (∃ db', createNetwork c7db 1 1 ⟨.v4, 167772160, 16⟩
        [("owner", "ops")] = .ok db') ∧
    (updateNetwork c7db 1 3 [] = .error .validationError ∧
      runOp c7db (.updateNetwork 1 3 []) = c7db) ∧
    (∃ db', updateNetwork c7db 1 3 [("owner", "ops")] = .ok db') :=
  ⟨(c7_attribute_validation c7db 1 1 3 ⟨.v4, 167772160, 16⟩ [] c7net).1
      (by decide) (by decide) (by decide) (by decide),
    (c7_attribute_validation c7db 1 1 3 ⟨.v4, 167772160, 16⟩
        [("owner", "ops")] c7net).2.1
      (by decide) (by decide) (by decide) (by decide) (by decide),
    (c7_attribute_validation c7db 1 1 3 ⟨.v4, 167772160, 16⟩ [] c7net).2.2.1
      (by decide) (by decide),
    (c7_attribute_validation c7db 1 1 3 ⟨.v4, 167772160, 16⟩
        [("owner", "ops")] c7net).2.2.2
      (by decide) (by decide) (by decide)⟩

/-! ## C8: attribute-only update is structurally inert -/

/-- C8: an attribute-only Update replaces exactly the target Network's
attribute values: its id, Site, prefix and parent pointer are untouched,
every other Network is untouched, no Network appears or disappears, and
the other tables and the id counter are untouched. -/
theorem c8_update_frame {db : DB} {u x : Nat}
    {attrs : List (String × String)} {db' : DB}
    (h : updateNetwork db u x attrs = .ok db') :
    (∀ m ∈ db.networks, ∃ m' ∈ db'.networks,
      m'.id = m.id ∧ m'.site_id = m.site_id ∧ m'.pfx = m.pfx ∧
      m'.parent_id = m.parent_id ∧
      (m.id = x → m'.attributes = attrs) ∧ (m.id ≠ x → m' = m)) ∧
    (∀ m' ∈ db'.networks, ∃ m ∈ db.networks, m'.id = m.id) ∧
    db'.sites = db.sites ∧ db'.attributes = db.attributes ∧
    db'.next_id = db.next_id := by
  obtain ⟨n, hfind, hnets, hnid, hattrs, hsites⟩ := updateNetwork_ok_elim h
  refine ⟨?_, ?_, hsites, hattrs, hnid⟩
  · intro m hm
    by_cases hmx : m.id = x
    · refine ⟨{ m with attributes := attrs }, ?_, rfl, rfl, rfl, rfl,
        fun _ => rfl, fun hne => absurd hmx hne⟩
      rw [hnets]
      have : (fun m' : Network =>
          if m'.id == x then { m' with attributes := attrs } else m') m =
          { m with attributes := attrs } := by
        simp [hmx]
      rw [← this]
      exact List.mem_map_of_mem _ hm
    · refine ⟨m, ?_, rfl, rfl, rfl, rfl, fun he => absurd he hmx,
        fun _ => rfl⟩
      rw [hnets]
      have : (fun m' : Network =>
          if m'.id == x then { m' with attributes := attrs } else m') m =
          m := by
        simp [hmx]
      rw [← this]
      exact List.mem_map_of_mem _ hm
  · intro m' hm'
    rw [hnets] at hm'
    obtain ⟨b, hb, rfl⟩ := List.mem_map.mp hm'
    refine ⟨b, hb, ?_⟩
    dsimp only
    split <;> rfl

/-- Witness for C8: an attribute-only update of `10.0.0.0/16` in the
running example. -/
theorem c8_update_frame_witness :
    (∀ m ∈ (runOps demoOps).networks,
      ∃ m' ∈ (runOp (runOps demoOps) (.updateNetwork 1 3 [])).networks,
        m'.id = m.id ∧ m'.site_id = m.site_id ∧ m'.pfx = m.pfx ∧
        m'.parent_id = m.parent_id ∧
        (m.id = 3 → m'.attributes = []) ∧ (m.id ≠ 3 → m' = m)) ∧
    (∀ m' ∈ (runOp (runOps demoOps) (.updateNetwork 1 3 [])).networks,
      ∃ m ∈ (runOps demoOps).networks, m'.id = m.id) ∧
    (runOp (runOps demoOps) (.updateNetwork 1 3 [])).sites =
      (runOps demoOps).sites ∧
    (runOp (runOps demoOps) (.updateNetwork 1 3 [])).attributes =
      (runOps demoOps).attributes ∧
    (runOp (runOps demoOps) (.updateNetwork 1 3 [])).next_id =
      (runOps demoOps).next_id :=
  @c8_update_frame (runOps demoOps) 1 3 []
    (runOp (runOps demoOps) (.updateNetwork 1 3 [])) rfl

/-! ## C6: supernets -/

/-- The immediate parent node of `n` in the table `nets`, if any. -/
def parentOf (nets : List Network) (n : Network) : Option Network :=
  match n.parent_id with
  | none => none
  | some pid => nets.find? (fun m => m.id == pid)

/-- Modelled from the spec: the ancestor-chain walk of
`models.Network.supernets` (§4.2, not among the provided sources): follow
parent pointers up from the immediate parent until a root.  The
prefix-length guard serves only termination of the recursion; under the
invariant a parent always has a strictly shorter prefix. -/
def chainUp (nets : List Network) (n : Network) : List Network :=
  match parentOf nets n with
  | none => []
  | some q => if h : q.pfx.plen < n.pfx.plen then q :: chainUp nets q else [q]
termination_by n.pfx.plen

/-- Modelled from the spec: `Supernets(network, direct)` of §4.2 — the
body of `models.Network.supernets`, not among the provided sources.
`direct = true` yields only the immediate parent (zero or one result);
`direct = false` yields the ancestor chain from the immediate parent up to
the root, most specific first. -/
def supernets (nets : List Network) (n : Network) (direct : Bool) :
    List Network :=
  if direct then (parentOf nets n).toList else chainUp nets n

/-- With unique ids, `find?` by a member's id returns that member. -/
theorem find?_id_of_mem {nets : List Network}
    (huid : ∀ m ∈ nets, ∀ m' ∈ nets, m.id = m'.id → m = m')
    {w : Network} (hw : w ∈ nets) :
    nets.find? (fun m => m.id == w.id) = some w := by
  induction nets with
  | nil => cases hw
  | cons y rest ih =>
    by_cases hy : y.id = w.id
    · have hyw : y = w :=
        huid y (List.mem_cons_self y rest) w hw hy
      rw [List.find?_cons_of_pos _ (by simp [hy])]
      rw [hyw]
    · have hw' : w ∈ rest := by
        rcases List.mem_cons.mp hw with rfl | h'
        · exact absurd rfl hy
        · exact h'
      rw [List.find?_cons_of_neg _ (by simp [hy])]
      exact ih (fun m hm m' hm' =>
        huid m (List.mem_cons_of_mem _ hm) m' (List.mem_cons_of_mem _ hm')) hw'

/-- Under the invariant, `parentOf` resolves exactly the parent pointer:
none for roots, and the most specific container for everyone else. -/
theorem parentOf_inv {nets : List Network} (hinv : NetsInv nets)
    {n : Network} (hn : n ∈ nets) :
    (parentOf nets n = none ∧ n.parent_id = none ∧
      NoContainer nets n.site_id n.pfx) ∨
    (∃ w, parentOf nets n = some w ∧ n.parent_id = some w.id ∧
      IsMSC nets n.site_id n.pfx w) := by
  obtain ⟨huid, hupfx, hval, hpok⟩ := hinv
  rcases hpok n hn with ⟨hpn, hnc⟩ | ⟨w, hw, hmscw, hpw⟩
  · left
    exact ⟨by unfold parentOf; rw [hpn], hpn, hnc⟩
  · right
    refine ⟨w, ?_, hpw, hmscw⟩
    unfold parentOf
    rw [hpw]
    exact find?_id_of_mem huid hw

/-- An empty chain means no parent. -/
theorem parentOf_eq_none_of_chainUp_nil {nets : List Network} {n : Network}
    (h : chainUp nets n = []) : parentOf nets n = none := by
  rcases hp : parentOf nets n with - | q
  · rfl
  · exfalso
    rw [chainUp, hp] at h
    have h' : (if _h : q.pfx.plen < n.pfx.plen then q :: chainUp nets q
        else [q]) = ([] : List Network) := h
    by_cases hq : q.pfx.plen < n.pfx.plen
    · rw [dif_pos hq] at h'
      cases h'
    · rw [dif_neg hq] at h'
      cases h'

/-- The full characterisation of the ancestor-chain walk under the
invariant, by strong induction on the prefix length. -/
theorem chainUp_spec {nets : List Network} (hinv : NetsInv nets) :
    ∀ k, ∀ n ∈ nets, n.pfx.plen ≤ k →
      (∀ a, a ∈ chainUp nets n ↔ Ancestor nets a n) ∧
      (chainUp nets n).Pairwise (fun a b => b.pfx.plen < a.pfx.plen) ∧
      (∀ a ∈ chainUp nets n, a.pfx.plen < n.pfx.plen) ∧
      (∀ r, (chainUp nets n).getLast? = some r → r.parent_id = none) := by
  have huid := hinv.1
  have hval := hinv.2.2.1
  intro k
  induction k with
  | zero =>
    intro n hn hk
    rcases parentOf_inv hinv hn with ⟨hpo, hpn, hnc⟩ |
      ⟨w, hpo, hpw, hmscw⟩
    · rw [chainUp, hpo]
      refine ⟨?_, by simp, by simp, by simp⟩
      intro a
      simp only [List.not_mem_nil, false_iff]
      intro hanc
      cases hanc with
      | parent b ha hb hp => rw [hpn] at hp; cases hp
      | step m b hm hb hp h' => rw [hpn] at hp; cases hp
    · have := Pfx.scontains_plen_lt (hval w hmscw.1) (hval n hn) hmscw.2.2.1
      omega
  | succ k ih =>
    intro n hn hk
    rcases parentOf_inv hinv hn with ⟨hpo, hpn, hnc⟩ |
      ⟨w, hpo, hpw, hmscw⟩
    · rw [chainUp, hpo]
      refine ⟨?_, by simp, by simp, by simp⟩
      intro a
      simp only [List.not_mem_nil, false_iff]
      intro hanc
      cases hanc with
      | parent b ha hb hp => rw [hpn] at hp; cases hp
      | step m b hm hb hp h' => rw [hpn] at hp; cases hp
    · have hplt : w.pfx.plen < n.pfx.plen :=
        Pfx.scontains_plen_lt (hval w hmscw.1) (hval n hn) hmscw.2.2.1
      have hch : chainUp nets n = w :: chainUp nets w := by
        rw [chainUp, hpo]
        exact dif_pos hplt
      obtain ⟨ihmem, ihpw, ihlt, ihlast⟩ :=
        ih w hmscw.1 (by omega)
      refine ⟨?_, ?_, ?_, ?_⟩
      · intro a
        rw [hch]
        constructor
        · intro ha
          rcases List.mem_cons.mp ha with rfl | ha'
          · exact Ancestor.parent n hmscw.1 hn hpw
          · exact Ancestor.step w n hmscw.1 hn hpw ((ihmem a).mp ha')
        · intro hanc
          cases hanc with
          | parent b ha' hb' hp =>
            have : w = a := by
              rw [hpw] at hp
              injection hp with h'
              exact huid w hmscw.1 a ha' h'
            rw [← this]
            exact List.mem_cons_self _ _
          | step m b hm hb' hp h' =>
            have hwm : w = m := by
              rw [hpw] at hp
              injection hp with h''
              exact huid w hmscw.1 m hm h''
            rw [← hwm] at h'
            exact List.mem_cons_of_mem _ ((ihmem a).mpr h')
      · rw [hch]
        exact List.pairwise_cons.mpr ⟨ihlt, ihpw⟩
      · intro a ha
        rw [hch] at ha
        rcases List.mem_cons.mp ha with rfl | ha'
        · exact hplt
        · have := ihlt a ha'
          omega
      · intro r hr
        rw [hch] at hr
        cases hcw : chainUp nets w with
        | nil =>
          rw [hcw] at hr
          simp only [List.getLast?_singleton, Option.some.injEq] at hr
          have hpwnone := parentOf_eq_none_of_chainUp_nil hcw
          rcases parentOf_inv hinv hmscw.1 with ⟨-, hh, -⟩ |
            ⟨w', hpo', -, -⟩
          · rw [← hr]
            exact hh
          · rw [hpwnone] at hpo'
            cases hpo'
        | cons y ys =>
          rw [hcw] at hr
          rw [List.getLast?_cons_cons] at hr
          apply ihlast
          rw [hcw]
          exact hr

/-- C6: under the invariant, `Supernets(N, direct = true)` is exactly
N's immediate parent (zero or one result), and
`Supernets(N, direct = false)` is exactly the ancestor chain of N,
starting at the immediate parent, ending at a root, ordered from most
specific to least specific prefix. -/
theorem c6_supernets {nets : List Network} (hinv : NetsInv nets)
    {n : Network} (hn : n ∈ nets) :
    ((n.parent_id = none → supernets nets n true = []) ∧
      (∀ w, parentOf nets n = some w →
        supernets nets n true = [w] ∧ n.parent_id = some w.id) ∧
      (supernets nets n true).length ≤ 1) ∧
    ((∀ a, a ∈ supernets nets n false ↔ Ancestor nets a n) ∧
      (supernets nets n false).Pairwise
        (fun a b => b.pfx.plen < a.pfx.plen) ∧
      (∀ a ∈ supernets nets n false, a.pfx.plen < n.pfx.plen) ∧
      (∀ w, parentOf nets n = some w →
        (supernets nets n false).head? = some w) ∧
      (∀ r, (supernets nets n false).getLast? = some r →
        r.parent_id = none)) := by
  obtain ⟨hmem, hpw, hlt, hlast⟩ :=
    chainUp_spec hinv n.pfx.plen n hn (Nat.le_refl _)
  have hsup : supernets nets n false = chainUp nets n := by
    unfold supernets
    rw [if_neg (by simp)]
  have hsupt : supernets nets n true = (parentOf nets n).toList := by
    unfold supernets
    rw [if_pos rfl]
  refine ⟨⟨?_, ?_, ?_⟩, ?_, ?_, ?_, ?_, ?_⟩
  · intro hpn
    rw [hsupt]
    unfold parentOf
    rw [hpn]
    rfl
  · intro w hw
    constructor
    · rw [hsupt, hw]
      rfl
    · rcases parentOf_inv hinv hn with ⟨hpo, -, -⟩ | ⟨w', hpo, hpw', -⟩
      · rw [hpo] at hw
        cases hw
      · rw [hpo] at hw
        injection hw with hww
        rw [hpw', hww]
  · rw [hsupt]
    cases parentOf nets n <;> simp
  · intro a
    rw [hsup]
    exact hmem a
  · rw [hsup]
    exact hpw
  · intro a ha
    rw [hsup] at ha
    exact hlt a ha
  · intro w hw
    rcases parentOf_inv hinv hn with ⟨hpo, -, -⟩ | ⟨w', hpo, hpw', hmscw⟩
    · rw [hpo] at hw
      cases hw
    · rw [hpo] at hw
      injection hw with hww
      have hplt : w'.pfx.plen < n.pfx.plen :=
        Pfx.scontains_plen_lt (hinv.2.2.1 w' hmscw.1) (hinv.2.2.1 n hn)
          hmscw.2.2.1
      have hch : chainUp nets n = w' :: chainUp nets w' := by
        rw [chainUp, hpo]
        exact dif_pos hplt
      rw [hsup, hch, ← hww]
      rfl
  · intro r hr
    rw [hsup] at hr
    exact hlast r hr

/-- Witness for C6: the `10.0.0.0/24` node of the running example; its
full supernet chain is `[10.0.0.0/16, 10.0.0.0/8]`. -/
theorem c6_supernets_witness :
    NetsInv (runOps demoOps).networks ∧
    demoNet24 ∈ (runOps demoOps).networks ∧
    (((demoNet24.parent_id = none →
        supernets (runOps demoOps).networks demoNet24 true = []) ∧
      (∀ w, parentOf (runOps demoOps).networks demoNet24 = some w →
        supernets (runOps demoOps).networks demoNet24 true = [w] ∧
        demoNet24.parent_id = some w.id) ∧
      (supernets (runOps demoOps).networks demoNet24 true).length ≤ 1) ∧
    ((∀ a, a ∈ supernets (runOps demoOps).networks demoNet24 false ↔
        Ancestor (runOps demoOps).networks a demoNet24) ∧
      (supernets (runOps demoOps).networks demoNet24 false).Pairwise
        (fun a b => b.pfx.plen < a.pfx.plen) ∧
      (∀ a ∈ supernets (runOps demoOps).networks demoNet24 false,
        a.pfx.plen < demoNet24.pfx.plen) ∧
      (∀ w, parentOf (runOps demoOps).networks demoNet24 = some w →
        (supernets (runOps demoOps).networks demoNet24 false).head? =
          some w) ∧
      (∀ r, (supernets (runOps demoOps).networks demoNet24 false).getLast? =
          some r → r.parent_id = none))) ∧
    supernets (runOps demoOps).networks demoNet24 false =
      [demoNet16, demoNet8] :=
  ⟨by decide, by decide,
    @c6_supernets (runOps demoOps).networks (by decide) demoNet24
      (by decide), by
    have h1 : parentOf (runOps demoOps).networks demoNet24 =
        some demoNet16 := by decide
    have h2 : parentOf (runOps demoOps).networks demoNet16 =
        some demoNet8 := by decide
    have h3 : parentOf (runOps demoOps).networks demoNet8 = none := by
      decide
    have e24 : chainUp (runOps demoOps).networks demoNet24 =
        demoNet16 :: chainUp (runOps demoOps).networks demoNet16 := by
      rw [chainUp, h1]
      exact dif_pos (by decide)
    have e16 : chainUp (runOps demoOps).networks demoNet16 =
        demoNet8 :: chainUp (runOps demoOps).networks demoNet8 := by
      rw [chainUp, h2]
      exact dif_pos (by decide)
    have e8 : chainUp (runOps demoOps).networks demoNet8 = [] := by
      rw [chainUp, h3]
    show chainUp (runOps demoOps).networks demoNet24 = [demoNet16, demoNet8]
    rw [e24, e16, e8]⟩

/-! ## C9: querying the change log (`ChangesHandler.get`) -/

/-- Modelled from the spec: `models.CHANGE_EVENTS` (`models.py` not among
the provided sources): the valid event names. -/
def CHANGE_EVENTS : List String := ["Create", "Update", "Delete"]

/-- The keys of `models.RESOURCE_BY_NAME` (modelled from the spec): the
names of the audited resource kinds. -/
def RESOURCE_NAMES : List String :=
  ["Site", "Network", "NetworkAttribute", "Permission"]

/-- The stored name of an event. -/
def eventName : Event → String
  | .create => "Create"
  | .update => "Update"
  | .delete => "Delete"

/-- The stored name of a resource kind. -/
def rtypeName : RType → String
  | .site => "Site"
  | .network => "Network"
  | .networkAttribute => "NetworkAttribute"

/-- Insert one Change into a list kept descending by `change_at`. -/
def insertDesc (c : Change) : List Change → List Change
  | [] => [c]
  | x :: xs =>
    if x.change_at ≤ c.change_at then c :: x :: xs else x :: insertDesc c xs

/-- SQL `ORDER BY change_at DESC` as an insertion sort. -/
def sortByChangeAtDesc : List Change → List Change
  | [] => []
  | c :: cs => insertDesc c (sortByChangeAtDesc cs)

/-- Embedded from `ChangesHandler.get` in `nsot/handlers/api.py`: the
`event`, `resource_type` and `resource_id` query parameters are validated
in the source's order — an unknown event or resource type and a
`resource_id` without `resource_type` are each a bad request, issued
before the Change table is consulted — then the log is filtered by Site,
event, resource type and resource id, and ordered by `change_at`
descending. -/
def changesGet (db : DB) (site_id : Nat) (event resource_type : Option String)
    (resource_id : Option Nat) : Except Err (List Change) :=
  if event ≠ none ∧ (event.getD "") ∉ CHANGE_EVENTS then .error .badRequest
  else if resource_type ≠ none ∧ (resource_type.getD "") ∉ RESOURCE_NAMES then
    .error .badRequest
  else if resource_id ≠ none ∧ resource_type = none then .error .badRequest
  else if ¬ (db.sites.any fun s => s.id == site_id) = true then
    .error .notFound
  else
    let l1 := db.changes.filter (fun c => c.site_id == site_id)
    let l2 := match event with
      | none => l1
      | some ev => l1.filter (fun c => eventName c.event == ev)
    let l3 := match resource_type with
      | none => l2
      | some rt => l2.filter (fun c => rtypeName c.resource_type == rt)
    let l4 := match resource_id with
      | none => l3
      | some rid => l3.filter (fun c => c.resource_id == rid)
    .ok (sortByChangeAtDesc l4)

theorem mem_insertDesc {c x : Change} {l : List Change}
    (h : x ∈ insertDesc c l) : x = c ∨ x ∈ l := by
  induction l with
  | nil =>
    simp [insertDesc] at h
    exact Or.inl h
  | cons y ys ih =>
    rw [insertDesc] at h
    by_cases hy : y.change_at ≤ c.change_at
    · rw [if_pos hy] at h
      rcases List.mem_cons.mp h with rfl | h'
      · exact Or.inl rfl
      · exact Or.inr h'
    · rw [if_neg hy] at h
      rcases List.mem_cons.mp h with rfl | h'
      · exact Or.inr (List.mem_cons_self _ _)
      · rcases ih h' with h'' | h''
        · exact Or.inl h''
        · exact Or.inr (List.mem_cons_of_mem _ h'')

theorem pairwise_insertDesc {c : Change} {l : List Change}
    (h : l.Pairwise (fun a b => b.change_at ≤ a.change_at)) :
    (insertDesc c l).Pairwise (fun a b => b.change_at ≤ a.change_at) := by
  induction l with
  | nil => simp [insertDesc]
  | cons y ys ih =>
    rw [insertDesc]
    obtain ⟨hy, hys⟩ := List.pairwise_cons.mp h
    by_cases hc : y.change_at ≤ c.change_at
    · rw [if_pos hc]
      refine List.pairwise_cons.mpr ⟨?_, h⟩
      intro z hz
      rcases List.mem_cons.mp hz with rfl | hz'
      · exact hc
      · exact le_trans (hy z hz') hc
    · rw [if_neg hc]
      refine List.pairwise_cons.mpr ⟨?_, ih hys⟩
      intro z hz
      rcases mem_insertDesc hz with rfl | hz'
      · omega
      · exact hy z hz'

theorem pairwise_sortByChangeAtDesc (l : List Change) :
    (sortByChangeAtDesc l).Pairwise
      (fun a b => b.change_at ≤ a.change_at) := by
  induction l with
  | nil => simp [sortByChangeAtDesc]
  | cons c cs ih =>
    rw [sortByChangeAtDesc]
    exact pairwise_insertDesc ih

/-- C9: any successful Change query returns entries ordered by
`change_at` descending, and a query passing `resource_id` without
`resource_type` is rejected with a bad request no matter what the change
log holds (the log is never consulted). -/
theorem c9_changes_query (db : DB) (site_id : Nat)
    (event resource_type : Option String) (resource_id : Option Nat) :
    (∀ l, changesGet db site_id event resource_type resource_id = .ok l →
      l.Pairwise (fun a b => b.change_at ≤ a.change_at)) ∧
    (resource_id ≠ none → resource_type = none →
      ∀ db2 : DB,
        changesGet db2 site_id event resource_type resource_id =
          .error .badRequest) := by
  constructor
  · intro l h
    unfold changesGet at h
    split_ifs at h with h1 h2 h3 h4
    injection h with h'
    rw [← h']
    exact pairwise_sortByChangeAtDesc _
  · intro hrid hrt db2
    subst hrt
    unfold changesGet
    by_cases h1 : event ≠ none ∧ (event.getD "") ∉ CHANGE_EVENTS
    · rw [if_pos h1]
    · rw [if_neg h1, if_neg (by simp), if_pos ⟨hrid, rfl⟩]

/-- Witness for C9: on the two-Site state, the Site-1 change query result
is sorted descending, and `resource_id` without `resource_type` is a bad
request. -/
theorem c9_changes_query_witness :
    (sortByChangeAtDesc
        (c5db.changes.filter (fun c => c.site_id == 1))).Pairwise
      (fun a b => b.change_at ≤ a.change_at) ∧
    changesGet c5db 1 none none (some 5) = .error .badRequest :=
  ⟨(c9_changes_query c5db 1 none none none).1 _ rfl,
    (c9_changes_query c5db 1 none none (some 5)).2 (by simp) rfl c5db⟩

/-! ## C10: omitted `description` on PUT is overwritten with `""` -/

/-- The JSON body of a Site PUT request as read by `SiteHandler.put`:
`name` is a required key (`jbody["name"]`), `description` optional. -/
structure SitePutBody where
  name : Option String
  description : Option String
deriving DecidableEq, Repr

/-- The JSON body of a NetworkAttribute PUT request as read by
`NetworkAttributeHandler.put`: both keys optional. -/
structure AttributePutBody where
  description : Option String
  required : Option Bool
deriving DecidableEq, Repr

/-- Embedded from `SiteHandler.put` in `nsot/handlers/api.py`: 404 when
the Site is missing, 400 when `name` is absent (`KeyError`), otherwise
`site.update` is called with
`description = self.jbody.get("description", "")` — an omitted
description is replaced by the empty string, not preserved. -/
def siteHandlerPut (db : DB) (user_id site_id : Nat) (body : SitePutBody) :
    Except Err DB :=
  if ¬ (db.sites.any fun s => s.id == site_id) = true then .error .notFound
  else
    match body.name with
    | none => .error .badRequest
    | some nm => updateSite db user_id site_id nm (body.description.getD "")

/-- Embedded from `NetworkAttributeHandler.put` in
`nsot/handlers/api.py`: 404 when the Site or the attribute is missing,
otherwise `attribute.update` is called with
`description = self.jbody.get("description", "")` and
`required = qpbool(self.jbody.get("required"))`. -/
def attributeHandlerPut (db : DB) (user_id site_id attribute_id : Nat)
    (body : AttributePutBody) : Except Err DB :=
  if ¬ (db.sites.any fun s => s.id == site_id) = true then .error .notFound
  else if ¬ (db.attributes.any fun d =>
      d.id == attribute_id && d.site_id == site_id) = true then
    .error .notFound
  else
    updateAttribute db user_id attribute_id (body.description.getD "")
      (body.required.getD false)

theorem updateSite_ok_elim {db : DB} {u x : Nat} {nm d : String} {db' : DB}
    (h : updateSite db u x nm d = .ok db') :
    db'.sites = db.sites.map (fun s =>
      if s.id == x then { s with name := nm, description := d } else s) := by
  unfold updateSite at h
  split at h
  · cases h
  split at h
  · cases h
  cases h
  rfl

theorem updateAttribute_ok_elim {db : DB} {u x : Nat} {d : String}
    {r : Bool} {db' : DB} (h : updateAttribute db u x d r = .ok db') :
    db'.attributes = db.attributes.map (fun a =>
      if a.id == x then { a with description := d, required := r }
      else a) := by
  unfold updateAttribute at h
  split at h
  · cases h
  cases h
  rfl

/-- C10: a Site PUT or NetworkAttribute PUT whose body omits
`description` stores the empty string as the new description rather than
keeping the previous value. -/
theorem c10_put_description_overwrite {dbS dbA : DB} {u sidS sidA aid : Nat}
    {sbody : SitePutBody} {abody : AttributePutBody} {db1 db2 : DB} :
    (sbody.description = none → siteHandlerPut dbS u sidS sbody = .ok db1 →
      ∀ s ∈ db1.sites, s.id = sidS → s.description = "") ∧
    (abody.description = none →
      attributeHandlerPut dbA u sidA aid abody = .ok db2 →
      ∀ d ∈ db2.attributes, d.id = aid → d.description = "") := by
  constructor
  · intro hdesc h
    unfold siteHandlerPut at h
    split at h
    · cases h
    split at h
    · cases h
    rename_i nm hnm
    rw [hdesc] at h
    have hsites := updateSite_ok_elim h
    intro s hs hsid
    rw [hsites] at hs
    obtain ⟨b, hb, rfl⟩ := List.mem_map.mp hs
    by_cases hbx : b.id = sidS
    · rw [if_pos (by simp [hbx])]
      rfl
    · exfalso
      apply hbx
      have : (if b.id == sidS then
          { b with name := nm, description := (none : Option String).getD "" }
          else b).id = b.id := by
        split <;> rfl
      rw [this] at hsid
      exact hsid
  · intro hdesc h
    unfold attributeHandlerPut at h
    split at h
    · cases h
    split at h
    · cases h
    rw [hdesc] at h
    have hattrs := updateAttribute_ok_elim h
    intro d hd haid
    rw [hattrs] at hd
    obtain ⟨b, hb, rfl⟩ := List.mem_map.mp hd
    by_cases hbx : b.id = aid
    · rw [if_pos (by simp [hbx])]
      rfl
    · exfalso
      apply hbx
      have hpid : (if b.id == aid then
          { b with
              description := (none : Option String).getD "",
              required := abody.required.getD false }
          else b).id = b.id := by
        split <;> rfl
      rw [hpid] at haid
      exact haid

/-- Witness for C10: a Site PUT on `c5db` omitting `description` and a
NetworkAttribute PUT on `c7db` omitting `description`. -/
theorem c10_put_description_overwrite_witness :
    (SitePutBody.mk (some "s1b") none).description = none ∧
    siteHandlerPut c5db 1 1 ⟨some "s1b", none⟩ =
      .ok (runOp c5db (.updateSite 1 1 "s1b" "")) ∧
    (AttributePutBody.mk none none).description = none ∧
    attributeHandlerPut c7db 1 1 2 ⟨none, none⟩ =
      .ok (runOp c7db (.updateAttribute 1 2 "" false)) ∧
    (∀ s ∈ (runOp c5db (.updateSite 1 1 "s1b" "")).sites,
      s.id = 1 → s.description = "") ∧
    (∀ d ∈ (runOp c7db (.updateAttribute 1 2 "" false)).attributes,
      d.id = 2 → d.description = "") :=
  ⟨rfl, rfl, rfl, rfl,
    (@c10_put_description_overwrite c5db c7db 1 1 1 2 ⟨some "s1b", none⟩
        ⟨none, none⟩ (runOp c5db (.updateSite 1 1 "s1b" ""))
        (runOp c7db (.updateAttribute 1 2 "" false))).1 rfl rfl,
    (@c10_put_description_overwrite c5db c7db 1 1 1 2 ⟨some "s1b", none⟩
        ⟨none, none⟩ (runOp c5db (.updateSite 1 1 "s1b" ""))
        (runOp c7db (.updateAttribute 1 2 "" false))).2 rfl rfl⟩

end Nsot
